import Mathlib

set_option maxRecDepth 2000

/-!
A verification development for the `restful` Go package: a shallow embedding
of its schema/type engine (field.go, util.go), optimistic-concurrency write
handlers (processor.go, seq.go) and the index-ensure queue (index.go),
together with theorems checking the package's specification against the code.

Modelling conventions:
* Go dynamic values (`interface{}` trees produced by `json.Unmarshal` and
  friends) are the inductive `GoValue`.  Go `map[string]interface{}` is an
  association list with string keys (Go maps have unique keys; iteration
  order is fixed by the list).  Go numeric types are collapsed to three
  constructors mirroring the three groups the code's type switches treat
  alike: signed integers (`vint`, value as `Int`), unsigned integers
  (`vuint`, value as `Nat`), floats (`vfloat`, numeric value as `Rat`).
* Machine arithmetic is explicit: 64-bit wrap-around uses `% 2^64`.
  Go's float-to-integer conversion truncates toward zero; out-of-range
  float conversions are modelled with the wrap the amd64 gc backend
  produces (truncate, then reduce mod 2^64).
* Fallible Go code returns `Option`/`Except`; a Go panic is `Option.none`
  at the outermost level of the function that would panic.
-/

namespace Restful

/-- A Go dynamic value (`interface{}`): the value trees that
`json.Unmarshal`, bson decoding and the coercion helpers traffic in. -/
inductive GoValue : Type where
  | vnull
  | vbool (b : Bool)
  | vint (n : Int)
  | vuint (n : Nat)
  | vfloat (q : Rat)
  | vstring (s : String)
  | vbytes (s : String)
  | varr (elems : List GoValue)
  | vobj (fields : List (String × GoValue))
deriving Repr, Inhabited

namespace GoValue

mutual
/-- Structural equality on `GoValue` (used only to obtain decidability). -/
def beqVal : GoValue → GoValue → Bool
  | .vnull, .vnull => true
  | .vbool a, .vbool b => a == b
  | .vint a, .vint b => a == b
  | .vuint a, .vuint b => a == b
  | .vfloat a, .vfloat b => a == b
  | .vstring a, .vstring b => a == b
  | .vbytes a, .vbytes b => a == b
  | .varr a, .varr b => beqList a b
  | .vobj a, .vobj b => beqFields a b
  | _, _ => false
def beqList : List GoValue → List GoValue → Bool
  | [], [] => true
  | a :: as, b :: bs => beqVal a b && beqList as bs
  | _, _ => false
def beqFields : List (String × GoValue) → List (String × GoValue) → Bool
  | [], [] => true
  | (k, a) :: as, (k2, b) :: bs => k == k2 && beqVal a b && beqFields as bs
  | _, _ => false
end

mutual
def beqVal_iff : ∀ a b : GoValue, beqVal a b = true ↔ a = b
  | .vnull, b => by cases b <;> simp [beqVal]
  | .vbool x, b => by cases b <;> simp [beqVal]
  | .vint x, b => by cases b <;> simp [beqVal]
  | .vuint x, b => by cases b <;> simp [beqVal]
  | .vfloat x, b => by cases b <;> simp [beqVal]
  | .vstring x, b => by cases b <;> simp [beqVal]
  | .vbytes x, b => by cases b <;> simp [beqVal]
  | .varr xs, b => by
      cases b <;> simp [beqVal]
      exact beqList_iff xs _
  | .vobj xs, b => by
      cases b <;> simp [beqVal]
      exact beqFields_iff xs _
def beqList_iff : ∀ a b : List GoValue, beqList a b = true ↔ a = b
  | [], b => by cases b <;> simp [beqList]
  | x :: xs, b => by
      cases b with
      | nil => simp [beqList]
      | cons y ys =>
        simp only [beqList, Bool.and_eq_true, beqVal_iff x y, beqList_iff xs ys,
          List.cons.injEq]
def beqFields_iff : ∀ a b : List (String × GoValue), beqFields a b = true ↔ a = b
  | [], b => by cases b <;> simp [beqFields]
  | (k, x) :: xs, b => by
      cases b with
      | nil => simp [beqFields]
      | cons hd tl =>
        obtain ⟨k2, y⟩ := hd
        simp only [beqFields, Bool.and_eq_true, beqVal_iff x y, beqFields_iff xs tl,
          List.cons.injEq, Prod.mk.injEq, beq_iff_eq]
end

instance : DecidableEq GoValue := fun a b => decidable_of_iff _ (beqVal_iff a b)


end GoValue

/-- One stored document / one untyped JSON object body: Go's
`map[string]interface{}` as an association list. -/
abbrev Doc := List (String × GoValue)

/-- `2^64`, the unsigned 64-bit modulus. -/
def u64Mod : Nat := 18446744073709551616

/-- `2^63`. -/
def i64Half : Int := 9223372036854775808

/-- Go conversion `uint64(n)` from a signed integer value: two's-complement
wrap modulo `2^64` (Go-specified behaviour for integer conversions). -/
def wrapU64 (n : Int) : Nat := (n % (18446744073709551616 : Int)).toNat

/-- Go conversion `int64(n)` of an arbitrary integer value: wrap into
`[-2^63, 2^63)`. -/
def wrapI64 (n : Int) : Int :=
  (n + i64Half) % (18446744073709551616 : Int) - i64Half

/-- Go uint subtraction `a - b` (wraps modulo `2^64`). -/
def usub (a b : Nat) : Nat := (a + u64Mod - b) % u64Mod

/-- Truncation toward zero of a rational: the value Go's float-to-integer
conversion produces for in-range floats (`Int.tdiv` is T-division). -/
def ratTrunc (q : Rat) : Int := Int.tdiv q.num q.den

/-! ## util.go: the scalar coercers -/

/-- `CheckBool` (util.go): the value if it is a Go `bool`, else nil. -/
def CheckBool : GoValue → Option GoValue
  | .vbool b => some (.vbool b)
  | _ => none

/-- `CheckInt` (util.go): any Go numeric input converted by `int64(v)`;
nil otherwise.  Signed inputs keep their value, unsigned inputs wrap into
int64 range, float inputs truncate toward zero. -/
def CheckInt : GoValue → Option GoValue
  | .vint n => some (.vint n)
  | .vuint n => some (.vint (wrapI64 n))
  | .vfloat q => some (.vint (wrapI64 (ratTrunc q)))
  | _ => none

/-- `CheckUint` (util.go): any Go numeric input converted by `uint64(v)`;
nil otherwise.  Signed inputs wrap modulo `2^64`; float inputs truncate
toward zero and wrap (amd64 gc semantics for out-of-range values). -/
def CheckUint : GoValue → Option GoValue
  | .vint n => some (.vuint (wrapU64 n))
  | .vuint n => some (.vuint n)
  | .vfloat q => some (.vuint (wrapU64 (ratTrunc q)))
  | _ => none

/-- `CheckFloat` (util.go): any Go numeric input converted by `float64(v)`;
nil otherwise.  (Rounding of 64-bit integers into float64 is not modelled;
the numeric value is kept exactly.) -/
def CheckFloat : GoValue → Option GoValue
  | .vint n => some (.vfloat n)
  | .vuint n => some (.vfloat n)
  | .vfloat q => some (.vfloat q)
  | _ => none

/-- `CheckString` (util.go): a `string` or `[]byte` input as a string;
nil otherwise. -/
def CheckString : GoValue → Option GoValue
  | .vstring s => some (.vstring s)
  | .vbytes s => some (.vstring s)
  | _ => none

/-- `CheckObject` (util.go): the value if it is a `map[string]interface{}`,
else nil. -/
def CheckObject : GoValue → Option GoValue
  | .vobj m => some (.vobj m)
  | _ => none

/-- `IsEmptyBool` (util.go). -/
def IsEmptyBool : GoValue → Bool
  | .vnull => true
  | .vbool b => !b
  | _ => false

/-- `IsEmptyNumber` (util.go): nil or a `float64` equal to 0.  (Only the
float64 dynamic type is tested, exactly as in the source.) -/
def IsEmptyNumber : GoValue → Bool
  | .vnull => true
  | .vfloat q => q == 0
  | _ => false

/-- `IsEmptyString` (util.go). -/
def IsEmptyString : GoValue → Bool
  | .vnull => true
  | .vstring s => s == ""
  | _ => false

/-- `IsEmptyArray` (util.go). -/
def IsEmptyArray : GoValue → Bool
  | .vnull => true
  | .varr v => v.isEmpty
  | _ => false

/-- `IsEmptyObject` (util.go): nil or an empty `map[string]interface{}`
(the `bson.M` case coincides with `vobj` in this model). -/
def IsEmptyObject : GoValue → Bool
  | .vnull => true
  | .vobj m => m.isEmpty
  | _ => false

/-- `RemoveDupArray` (util.go): remove duplicate strings.  The Go version
iterates a map and returns the distinct elements in unspecified order; the
model keeps first occurrences.  Every caller uses only membership or the
length of the result, which are order-independent. -/
def RemoveDupArray : List String → List String
  | [] => []
  | x :: xs => x :: (RemoveDupArray xs).filter (fun y => ¬ y = x)

/-! ## seq.go: the version token -/

/-- One decimal digit. -/
def isDigit (c : Char) : Bool := '0' ≤ c && c ≤ '9'

/-- Digits of `cs` as a natural number, `none` if empty or non-digit. -/
def digitsToNat : List Char → Option Nat
  | [] => none
  | cs =>
    if cs.all isDigit then
      some (cs.foldl (fun acc c => acc * 10 + (c.toNat - '0'.toNat)) 0)
    else none

/-- Go `strconv.ParseInt(s, 10, 64)`: an optional sign followed by at least
one decimal digit, value within int64 range; `none` models a returned
error (syntax or range). -/
def goParseInt64 (s : String) : Option Int :=
  let (neg, digits) :=
    match s.data with
    | '+' :: rest => (false, rest)
    | '-' :: rest => (true, rest)
    | cs => (false, cs)
  match digitsToNat digits with
  | none => none
  | some m =>
    let v : Int := if neg then -(m : Int) else (m : Int)
    if -i64Half ≤ v ∧ v < i64Half then some v else none

/-- `genSeq` (seq.go): decimal string of `n`, with 0 bumped to 1. -/
def genSeq (n : Int) : String :=
  toString (if n = 0 then n + 1 else n)

/-- `nextSeq` (seq.go): parse the decimal seq token, add one (64-bit signed
wrap-around, as Go's `n++`), and format with `genSeq`; error if the token
does not parse as an int64. -/
def nextSeq (seq : String) : Option String :=
  match goParseInt64 seq with
  | none => none
  | some n => some (genSeq (wrapI64 (n + 1)))

/-! ## field.go: kinds and the compiled schema -/

/-- `reflect.Invalid`. -/
def KindInvalid : Nat := 0
/-- `reflect.Bool`. -/
def KindBool : Nat := 1
/-- `reflect.Int64`. -/
def KindInt : Nat := 6
/-- `reflect.Uint64`. -/
def KindUint : Nat := 11
/-- `reflect.Float64`. -/
def KindFloat : Nat := 14
/-- `reflect.String`. -/
def KindString : Nat := 24
/-- `reflect.Struct`. -/
def KindObject : Nat := 25

def KindSimpleEnd : Nat := 999
def KindArrayBase : Nat := 1000
def KindArrayBool : Nat := KindArrayBase + KindBool
def KindArrayInt : Nat := KindArrayBase + KindInt
def KindArrayUint : Nat := KindArrayBase + KindUint
def KindArrayFloat : Nat := KindArrayBase + KindFloat
def KindArrayString : Nat := KindArrayBase + KindString
def KindArrayObject : Nat := KindArrayBase + KindObject
def KindArrayEnd : Nat := 1999
def KindMapBase : Nat := 2000
def KindMapBool : Nat := KindMapBase + KindBool
def KindMapInt : Nat := KindMapBase + KindInt
def KindMapUint : Nat := KindMapBase + KindUint
def KindMapFloat : Nat := KindMapBase + KindFloat
def KindMapString : Nat := KindMapBase + KindString
def KindMapObject : Nat := KindMapBase + KindObject
def KindMapEnd : Nat := 2999

/-- `Field` (field.go): a compiled schema entry. -/
structure Field where
  Kind : Nat
  CreateOnly : Bool := false
  ReadOnly : Bool := false
deriving Repr, DecidableEq

/-- `FieldSet` (field.go): the compiled schema: path-indexed field map plus
the ordered path list.  (`BuildFieldSet` walks a Go type with reflection;
the model quantifies over its output.) -/
structure FieldSet where
  FMap : List (String × Field)
  FSli : List String
deriving Repr

/-- Does `s` contain a dot (`strings.Index(k, ".") >= 0`)? -/
def containsDot (s : String) : Bool := s.data.any (· = '.')

/-- The part of `field` before its last dot
(`field[:strings.LastIndex(field, ".")]`), or `none` if it has no dot. -/
def lastDotPref (field : String) : Option String :=
  match field.data.reverse.dropWhile (· ≠ '.') with
  | [] => none
  | _ :: rest => some ⟨rest.reverse⟩

/-- `strings.HasPrefix(s, pre)` on character lists. -/
def listHasPref : List Char → List Char → Bool
  | _, [] => true
  | [], _ :: _ => false
  | a :: as, b :: bs => a = b && listHasPref as bs

/-- `strings.HasPrefix(s, pre)`. -/
def strHasPref (s pre : String) : Bool := listHasPref s.data pre.data

/-- `strings.Join(path, ".")`. -/
def joinDots (path : List String) : String := String.intercalate "." path

/-- Go map assignment `d[k] = v`: replace the binding if present, else add. -/
def docSet (d : Doc) (k : String) (v : GoValue) : Doc :=
  match d with
  | [] => [(k, v)]
  | (k2, v2) :: rest => if k2 = k then (k, v) :: rest else (k2, v2) :: docSet rest k v

/-- Remove every binding of key `k` (a Go map holds at most one). -/
def eraseAllKey {β : Type} : List (String × β) → String → List (String × β)
  | [], _ => []
  | (k2, v) :: rest, k =>
    if k2 = k then eraseAllKey rest k else (k2, v) :: eraseAllKey rest k

/-- Go map `delete(d, k)`. -/
def docErase (d : Doc) (k : String) : Doc := eraseAllKey d k

/-- `IsMapMember` (field.go): is `field` a dotted sub-key of a declared
map field?  Returns the map field's kind on success. -/
def FieldSet.IsMapMember (fs : FieldSet) (field : String) : Nat × Bool :=
  match lastDotPref field with
  | none => (KindInvalid, false)
  | some par =>
    match fs.FMap.lookup par with
    | some f =>
      if KindMapBase < f.Kind ∧ f.Kind < KindMapEnd then (f.Kind, true)
      else (KindInvalid, false)
    | none => (KindInvalid, false)

/-- `IsFieldMember` (field.go). -/
def FieldSet.IsFieldMember (fs : FieldSet) (field : String) : Nat × Bool :=
  match fs.FMap.lookup field with
  | none => fs.IsMapMember field
  | some f => (f.Kind, true)

/-- `IsFieldCreateOnly` (field.go): a missing key reads Go's zero `Field`. -/
def FieldSet.IsFieldCreateOnly (fs : FieldSet) (field : String) : Bool :=
  ((fs.FMap.lookup field).map Field.CreateOnly).getD false

/-- `IsFieldReadOnly` (field.go). -/
def FieldSet.IsFieldReadOnly (fs : FieldSet) (field : String) : Bool :=
  ((fs.FMap.lookup field).map Field.ReadOnly).getD false

/-- `SetCreateOnlyFields` (field.go): for each configured name, mark every
`FMap` entry whose path has that name as a *string* prefix. -/
def FieldSet.SetCreateOnlyFields (fs : FieldSet) (fields : List String) : FieldSet :=
  { fs with
    FMap := (RemoveDupArray fields).foldl
      (fun m field =>
        m.map (fun kv =>
          if strHasPref kv.1 field then (kv.1, { kv.2 with CreateOnly := true }) else kv))
      fs.FMap }

/-- `SetReadOnlyFields` (field.go). -/
def FieldSet.SetReadOnlyFields (fs : FieldSet) (fields : List String) : FieldSet :=
  { fs with
    FMap := (RemoveDupArray fields).foldl
      (fun m field =>
        m.map (fun kv =>
          if strHasPref kv.1 field then (kv.1, { kv.2 with ReadOnly := true }) else kv))
      fs.FMap }

/-- Is the value the Go interface nil? -/
def GoValue.isNull : GoValue → Bool
  | .vnull => true
  | _ => false

/-- `ParseSimpleValue` (field.go): nil-guarded dispatch to the scalar
coercers by base kind. -/
def FieldSet.ParseSimpleValue (_fs : FieldSet) (value : GoValue) (kind : Nat) : Option GoValue :=
  if value.isNull then none
  else if kind = KindBool then CheckBool value
  else if kind = KindInt then CheckInt value
  else if kind = KindUint then CheckUint value
  else if kind = KindFloat then CheckFloat value
  else if kind = KindString then CheckString value
  else if kind = KindObject then CheckObject value
  else none

/-- `ParseSimpleArray` (field.go): coerce the elements of an array with the
scalar coercer; nil elements are kept, elements that fail to coerce are
silently dropped; the result is nil unless at least one element remains. -/
def FieldSet.ParseSimpleArray (fs : FieldSet) (value : GoValue) (kind : Nat) : Option GoValue :=
  if value.isNull then none
  else
    match value with
    | .varr v =>
      let r := v.foldr
        (fun elem acc =>
          if elem.isNull then .vnull :: acc
          else
            match fs.ParseSimpleValue elem kind with
            | some sv => sv :: acc
            | none => acc)
        []
      if r.length > 0 then some (.varr r) else none
    | _ => none

mutual
/-- `ParseKindValue` (field.go): coerce a dynamic value for any kind.
The source's calls `ParseKindArray(v, kind)` and `ParseKindMap(m, kind)`
are inlined (so that the recursion is structural); `ParseKindArray` and
`ParseKindMap` below restate them verbatim and agree definitionally. -/
def ParseKindValue (value : GoValue) (kind : Nat) : Option GoValue :=
  if kind = KindBool then CheckBool value
  else if kind = KindInt then CheckInt value
  else if kind = KindUint then CheckUint value
  else if kind = KindFloat then CheckFloat value
  else if kind = KindString then CheckString value
  else if kind = KindObject then CheckObject value
  else if kind = KindArrayBool ∨ kind = KindArrayInt ∨ kind = KindArrayUint ∨
          kind = KindArrayFloat ∨ kind = KindArrayString ∨ kind = KindArrayObject then
    match value with
    | .varr v =>
      (if kind = KindBool ∨ kind = KindArrayInt ∨ kind = KindArrayUint ∨
          kind = KindArrayFloat ∨ kind = KindArrayString ∨ kind = KindArrayObject then
        parseArrayElems v (usub kind KindArrayBase)
      else some []).map GoValue.varr
    | _ => none
  else if kind = KindMapBool ∨ kind = KindMapInt ∨ kind = KindMapUint ∨
          kind = KindMapFloat ∨ kind = KindMapString ∨ kind = KindMapObject then
    match value with
    | .vobj m =>
      (if parseMapValuesOk m (usub kind KindMapBase) then some m else none).map GoValue.vobj
    | _ => none
  else none

/-- The element loop of `ParseKindArray` (field.go): every element must
coerce for `elemKind`; nil on the first failure, else the new array. -/
def parseArrayElems (value : List GoValue) (elemKind : Nat) : Option (List GoValue) :=
  match value with
  | [] => some []
  | e :: es =>
    match ParseKindValue e elemKind with
    | none => none
    | some v' =>
      match parseArrayElems es elemKind with
      | none => none
      | some r => some (v' :: r)

/-- The value loop of `ParseKindMap` (field.go): does every map value
coerce for `elemKind`? -/
def parseMapValuesOk (value : Doc) (elemKind : Nat) : Bool :=
  match value with
  | [] => true
  | (_, v) :: rest =>
    (ParseKindValue v elemKind).isSome && parseMapValuesOk rest elemKind
end

/-- `ParseKindArray` (field.go): the switch enumerates `KindBool` (sic, in
the source, where `KindArrayBool` would fit the pattern of the other five
cases) and the array kinds Int/Uint/Float/String/Object; a matching case
coerces every element with kind `kind - KindArrayBase` (uint arithmetic)
and fails wholesale on the first failing element; any other kind -- in
particular `KindArrayBool` -- returns the empty slice `r` untouched, a
non-nil success. -/
def ParseKindArray (value : List GoValue) (kind : Nat) : Option (List GoValue) :=
  if kind = KindBool ∨ kind = KindArrayInt ∨ kind = KindArrayUint ∨
     kind = KindArrayFloat ∨ kind = KindArrayString ∨ kind = KindArrayObject then
    parseArrayElems value (usub kind KindArrayBase)
  else some []

/-- `ParseKindMap` (field.go): every value must coerce for kind
`kind - KindMapBase`, but the ORIGINAL mapping is returned unmodified. -/
def ParseKindMap (value : Doc) (kind : Nat) : Option Doc :=
  if parseMapValuesOk value (usub kind KindMapBase) then some value else none

/-- `EmptyValue` (field.go): the zero value the filter compiler pairs with
null.  The numeric kinds produce the Go literal `0`, an `int`. -/
def EmptyValue (kind : Nat) : Option GoValue :=
  if kind = KindBool then some (.vbool false)
  else if kind = KindInt ∨ kind = KindUint ∨ kind = KindFloat then some (.vint 0)
  else if kind = KindString then some (.vstring "")
  else if kind = KindObject then some (.vobj [])
  else if KindArrayBase < kind ∧ kind < KindArrayEnd then some (.varr [])
  else if KindMapBase < kind ∧ kind < KindMapEnd then some (.vobj [])
  else none

/-- `IsEmpty` (field.go): is the value nil or the kind's zero?  Note the
numeric guard is `KindInt <= k && k < KindFloat`, which leaves
`KindFloat` itself outside every case. -/
def IsEmpty (value : GoValue) (kind : Nat) : Bool :=
  if kind = KindBool then IsEmptyBool value
  else if KindInt ≤ kind ∧ kind < KindFloat then IsEmptyNumber value
  else if kind = KindString then IsEmptyString value
  else if kind = KindObject then IsEmptyObject value
  else if KindArrayBase < kind ∧ kind < KindArrayEnd then IsEmptyArray value
  else if KindMapBase < kind ∧ kind < KindMapEnd then IsEmptyObject value
  else false

/-- The disposition of one `check` loop iteration for one key/value pair
(field.go): either a violation (recording `invalidFields[full] = reason`
and running `delete(obj, full)`), or the entry is kept, recursing into it
when its declared kind is Object or Array-of-Object. -/
inductive EntryAction where
  | viol (full reason : String)
  | keep
  | keepObj
  | keepArrObj
deriving Repr, DecidableEq

/-- The branch structure of one `check` iteration (field.go), with the
recursive descents factored out into `check`/`checkInto`/`checkElems`
below.  Mirrors the source order: dotted keys are handled first (patch
mode accepts a map member's sub-key, validating against the map's element
kind); ordinary keys are checked for membership, read-only, create-only
(patch mode only) and kind, then Object and Array-of-Object values are
marked for descent. -/
def FieldSet.checkEntry (fs : FieldSet) (pre : List String) (dOk : Bool)
    (k : String) (v : GoValue) : EntryAction :=
  if containsDot k then
    if ¬ dOk then .viol k "dot not allow"
    else if ¬ pre.isEmpty then .viol k "dot invalid"
    else
      match fs.IsMapMember k with
      | (_, false) => .viol k "unknown"
      | (kind, true) =>
        match ParseKindValue v (usub kind KindMapBase) with
        | none => .viol k "type mismatch"
        | some _ => .keep
  else
    let full := joinDots (pre ++ [k])
    match fs.IsFieldMember full with
    | (_, false) => .viol full "unknown"
    | (kind, true) =>
      if fs.IsFieldReadOnly full then .viol full "read only"
      else if dOk ∧ fs.IsFieldCreateOnly full then .viol full "create only"
      else
        match ParseKindValue v kind with
        | none => .viol full "type mismatch"
        | some _ =>
          if kind = KindObject then .keepObj
          else if kind = KindArrayObject then .keepArrObj
          else .keep

mutual
/-- `check` (field.go): the recursive validator loop over one object
level.  Returns the object as the loop leaves it and the recorded
violations (`invalidFields` entries, in iteration order).

Faithfulness notes, keyed to the source:
* A violation records `invalidFields[full]` and runs `delete(obj, full)`:
  at the top level `full = k` and the entry is removed; at a nested level
  `full ≠ k`, the delete targets a key the nested map does not contain
  (unless it literally holds a dotted key equal to `full`), and the
  offending entry itself stays.  The model drops the current entry
  exactly when `full = k`.  A literal dotted key equal to `full` in the
  same nested map would be removed by that delete in Go before or after
  its own iteration visit; such a key is itself always a recorded
  dot-violation when visited, so the final object is the same either way
  and the model lets the visit handle it.
* Successfully validated values are NOT written back: the entry keeps its
  original value; only Object/Array-of-Object children are the recursion
  results (Go mutates those maps in place).
-/
def FieldSet.check (fs : FieldSet) (pre : List String) (dOk : Bool) :
    Doc → Doc × List (String × String)
  | [] => ([], [])
  | (k, v) :: rest =>
    match fs.checkEntry pre dOk k v with
    | .viol full reason =>
      let r := fs.check pre dOk rest
      ((if full = k then [] else [(k, v)]) ++ r.1, (full, reason) :: r.2)
    | .keep =>
      let r := fs.check pre dOk rest
      ((k, v) :: r.1, r.2)
    | .keepObj =>
      let c := fs.checkInto (pre ++ [k]) dOk v
      let r := fs.check pre dOk rest
      ((k, c.1) :: r.1, c.2 ++ r.2)
    | .keepArrObj =>
      match v with
      | .varr elems =>
        let c := fs.checkElems (pre ++ [k]) dOk elems
        let r := fs.check pre dOk rest
        ((k, .varr c.1) :: r.1, c.2 ++ r.2)
      | v =>
        let r := fs.check pre dOk rest
        ((k, v) :: r.1, r.2)

/-- Recursion of `check` into one Object value.  After the Object
coercion succeeded the value is a map (Go's `v.(map[string]interface{})`
assertion); validating it in place yields the mutated map. -/
def FieldSet.checkInto (fs : FieldSet) (pre : List String) (dOk : Bool) :
    GoValue → GoValue × List (String × String)
  | .vobj child =>
    let c := fs.check pre dOk child
    (.vobj c.1, c.2)
  | v => (v, [])

/-- The element loop of `check` for Array-of-Object fields: each element
is a map (the array coercion succeeded) and is validated in place. -/
def FieldSet.checkElems (fs : FieldSet) (pre : List String) (dOk : Bool) :
    List GoValue → List GoValue × List (String × String)
  | [] => ([], [])
  | e :: es =>
    let c := fs.checkInto pre dOk e
    let r := fs.checkElems pre dOk es
    (c.1 :: r.1, c.2 ++ r.2)
end

/-- `CheckObject` (field.go, method): validate and sanitize a document,
failing iff any violation was recorded.  Returns the sanitized document
alongside the error (the Go version mutates `obj` in place). -/
def FieldSet.CheckObject (fs : FieldSet) (obj : Doc) (dotOk : Bool) :
    Doc × Option String :=
  let r := fs.check [] dotOk obj
  (r.1, if r.2.isEmpty then none else some "invalid fields")

/-- `InReplace` (field.go): rename the boundary key `id` to the storage
primary key `_id`. -/
def FieldSet.InReplace (_fs : FieldSet) (value : Doc) : Doc :=
  match value.lookup "id" with
  | some v => docErase (docSet value "_id" v) "id"
  | none => value

/-- `OutReplace` (field.go): rename `_id` back to `id`. -/
def FieldSet.OutReplace (_fs : FieldSet) (value : Doc) : Doc :=
  match value.lookup "_id" with
  | some v => docErase (docSet value "id" v) "_id"
  | none => value

/-- One `InSort` loop iteration for an already-renamed key: skip dotted
paths, keep fields present in the document. -/
def insortEntryKey (data : Doc) (key : String) : Option (String × GoValue) :=
  if containsDot key then none
  else (data.lookup key).map (fun w => (key, w))

/-- One `InSort` loop iteration: rename `id` to `_id`, then the key step. -/
def insortEntry (data : Doc) (value : String) : Option (String × GoValue) :=
  insortEntryKey data (if value = "id" then "_id" else value)

/-- `InSort` (field.go): lay the document out in schema order
(`bson.D`): walk `FSli`, rename `id`, skip dotted paths, keep the fields
present in the document. -/
def FieldSet.InSort (fs : FieldSet) (data : Doc) : Doc :=
  fs.FSli.filterMap (insortEntry data)

/-- The per-field value compilation of `BuildFilterObj` (field.go),
factored out of the loop: `.error` is a returned error, `.ok (some v)`
stores `cond[k] = v`, `.ok none` stores nothing (a kind outside every
range).  A nil or kind-empty value compiles to the null-or-kind-zero
predicate; otherwise scalar kinds coerce the value, array kinds pass an
array value through uninterpreted, and map kinds coerce the value with
the map's ELEMENT kind. -/
def buildFilterValue (fs : FieldSet) (kind : Nat) (value : GoValue) :
    Except String (Option GoValue) :=
  if (¬ kind = KindInvalid ∧ value.isNull) ∨ IsEmpty value kind then
    match EmptyValue kind with
    | none => .ok (some .vnull)
    | some empty => .ok (some (.vobj [("$in", .varr [.vnull, empty])]))
  else if KindBool ≤ kind ∧ kind < KindSimpleEnd then
    match fs.ParseSimpleValue value kind with
    | some v => .ok (some v)
    | none => .error "filter field type mismatch"
  else if KindArrayBase < kind ∧ kind < KindArrayEnd then
    match value with
    | .varr _ => .ok (some value)
    | _ => .error "filter field type mismatch"
  else if KindMapBase < kind ∧ kind < KindMapEnd then
    match ParseKindValue value (usub kind KindMapBase) with
    | some v => .ok (some v)
    | none => .error "filter field type mismatch"
  else .ok none

/-- `BuildFilterObj` (field.go): compile the exact-match filter clause
into the condition map.  `Except` carries the first error. -/
def FieldSet.BuildFilterObj (fs : FieldSet) : Doc → Doc → Except String Doc
  | [], cond => .ok cond
  | (k, value) :: rest, cond =>
    if (cond.lookup k).isSome then .error "filter field condition conflict"
    else
      match fs.IsFieldMember k with
      | (_, false) => .error "filter field unknown"
      | (kind, true) =>
        match buildFilterValue fs kind value with
        | .error e => .error e
        | .ok none => fs.BuildFilterObj rest cond
        | .ok (some v) => fs.BuildFilterObj rest (cond ++ [(k, v)])

/-- The per-field loop body of `CheckSearchFields` (field.go). -/
def checkSearchFieldsLoop (fs : FieldSet) : List String → Option String
  | [] => none
  | field :: rest =>
    if field.length ≤ 0 then some "search field invalid"
    else
      match fs.IsFieldMember field with
      | (_, false) => some "search field unknown"
      | (kind, true) =>
        if ¬ kind = KindString ∧ ¬ kind = KindArrayString then
          some "search field not string"
        else checkSearchFieldsLoop fs rest

/-- `CheckSearchFields` (field.go). -/
def FieldSet.CheckSearchFields (fs : FieldSet) (fields : List String) : Option String :=
  checkSearchFieldsLoop fs (RemoveDupArray fields)

/-- The per-field loop body of `CheckRegexSearchFields` (field.go). -/
def checkRegexSearchFieldsLoop (fs : FieldSet) : List String → Option String
  | [] => none
  | field :: rest =>
    if field.length ≤ 0 then some "regex search field invalid"
    else
      match fs.IsFieldMember field with
      | (_, false) => some "regex search field unknown"
      | (kind, true) =>
        if ¬ kind = KindString then some "regex search field not string"
        else checkRegexSearchFieldsLoop fs rest

/-- `CheckRegexSearchFields` (field.go). -/
def FieldSet.CheckRegexSearchFields (fs : FieldSet) (fields : List String) : Option String :=
  checkRegexSearchFieldsLoop fs (RemoveDupArray fields)

/-- The per-field loop of `CheckIndexFields` (field.go): validate the
signed index key names and normalize ascending ones. -/
def checkIndexFieldsLoop (fs : FieldSet) : List String → Except String (List String)
  | [] => .ok []
  | field :: rest =>
    match field.data with
    | [] => .error "index fields invalid"
    | [_] => .error "index fields invalid"
    | r :: ks =>
      let k : String := ⟨ks⟩
      if ¬ r = '+' ∧ ¬ r = '-' then .error "index fields should start with sign"
      else if k = "id" then .error "index fields should not contains id field"
      else
        match fs.IsFieldMember k with
        | (_, false) => .error "index fields unknown"
        | (_, true) =>
          (checkIndexFieldsLoop fs rest).map
            (fun t => (if r = '+' then k else field) :: t)

/-- `CheckIndexFields` (field.go). -/
def FieldSet.CheckIndexFields (fs : FieldSet) (fields : List String) :
    Except String (List String) :=
  if fields.isEmpty then .error "index fields empty"
  else if ¬ fields.length = (RemoveDupArray fields).length then .error "index fields dup"
  else checkIndexFieldsLoop fs fields

/-! ## processor.go: responses, storage primitives, write handlers -/

/-- `Rsp` (handler.go): the response descriptor. -/
structure Rsp where
  Code : Nat
  Msg : String
  Data : Option Doc
deriving Repr, DecidableEq

/-- `genRsp`. -/
def genRsp (code : Nat) (msg : String) (data : Option Doc) : Rsp :=
  { Code := code, Msg := msg, Data := data }

/-- Does the document's `_id` equal the string `id` (the selector
`bson.M\x7b"_id": id\x7d`)? -/
def matchId (id : String) (d : Doc) : Bool :=
  match d.lookup "_id" with
  | some (.vstring x) => x == id
  | _ => false

/-- Does the document match the conditional-write selector
`bson.M\x7b"_id": id, "seq": seq\x7d`? -/
def matchIdSeq (id seq : String) (d : Doc) : Bool :=
  matchId id d &&
    (match d.lookup "seq" with
     | some (.vstring x) => x == seq
     | _ => false)

/-- Go `info[k'] = v` for every binding of `info` (the `$set` document). -/
def docMerge (d : Doc) (info : Doc) : Doc :=
  info.foldl (fun acc kv => docSet acc kv.1 kv.2) d

/-- mgo `Update(selector, bson.M\x7b"$set": info\x7d)`: apply the `$set`
to the first matching document; `none` is `mgo.ErrNotFound`. -/
def dbUpdateSet : List Doc → (Doc → Bool) → Doc → Option (List Doc)
  | [], _, _ => none
  | d :: ds, sel, info =>
    if sel d then some (docMerge d info :: ds)
    else (dbUpdateSet ds sel info).map (d :: ·)

/-- mgo `Upsert(bson.M\x7b"_id": id\x7d, &doc)`: replace the first
document with that primary key wholesale, or insert `doc`. -/
def dbUpsert : List Doc → String → Doc → List Doc
  | [], _, doc => [doc]
  | d :: ds, id, doc => if matchId id d then doc :: ds else d :: dbUpsert ds id doc

/-- `defaultPatch` (processor.go), from the point where the request body
has been unmarshalled: validate in patch mode, rename `id`, and perform
either the unconditional (`ignore_seq=true`) or the seq-conditional
update.  `db` is the collection contents; `now` is `time.Now().Unix()`.
JSON decoding, logging and timing live outside the model. -/
def defaultPatch (fs : FieldSet) (db : List Doc) (id : String) (qseq : String)
    (ignoreSeq : Bool) (body : Doc) (now : Int) : List Doc × Rsp :=
  let checked := fs.CheckObject body true
  match checked.2 with
  | some e => (db, genRsp 400 e none)
  | none =>
    let info := fs.InReplace checked.1
    if ¬ ignoreSeq ∧ qseq = "" then (db, genRsp 400 "need seq" none)
    else if ignoreSeq then
      let info := docSet (docErase info "seq") "mtime" (.vint now)
      match dbUpdateSet db (matchId id) info with
      | some db' =>
        (db', genRsp 200 "patch ok" (some [("id", .vstring id)]))
      | none => (db, genRsp 500 "db access fail" none)
    else
      match nextSeq qseq with
      | none => (db, genRsp 400 "invalid seq" none)
      | some ns =>
        let info := docSet (docSet info "seq" (.vstring ns)) "mtime" (.vint now)
        match dbUpdateSet db (fun d => matchIdSeq id qseq d) info with
        | none => (db, genRsp 400 "id not found or seq conflict" none)
        | some db' =>
          (db', genRsp 200 "patch ok"
            (some [("id", .vstring id), ("seq", (info.lookup "seq").getD .vnull)]))

/-- `defaultPut` (processor.go), from the point where the request body has
been unmarshalled: set `id`, validate in create mode, rename, stamp
`btime`/`mtime`/`seq` defaults, read the prior document's `btime`/`seq`,
and upsert the schema-ordered document.  The result is `none` exactly when
the Go code would panic on `old["seq"].(string)` (a stored non-string
seq). -/
def defaultPut (fs : FieldSet) (db : List Doc) (id : String) (body : Doc)
    (now : Int) : Option (List Doc × Rsp) :=
  let info0 := docSet body "id" (.vstring id)
  if id.length > 128 then some (db, genRsp 400 "id too long" none)
  else
    let checked := fs.CheckObject info0 false
    match checked.2 with
    | some e => some (db, genRsp 400 e none)
    | none =>
      let info1 := fs.InReplace checked.1
      let info2 :=
        docSet (docSet (docSet info1 "btime" (.vint now)) "mtime" (.vint now))
          "seq" (.vstring (genSeq 0))
      let withOld : Option Doc :=
        match db.find? (matchId id) with
        | none => some info2
        | some old =>
          let infoB :=
            match old.lookup "btime" with
            | some v => docSet info2 "btime" v
            | none => docSet info2 "btime" (.vint now)
          match old.lookup "seq" with
          | none => some infoB
          | some (.vstring s) =>
            match nextSeq s with
            | some ns => some (docSet infoB "seq" (.vstring ns))
            | none => some (docSet infoB "seq" (.vstring (genSeq 0)))
          | some _ => none
      match withOld with
      | none => none
      | some info =>
        let doc := fs.InSort info
        some (dbUpsert db id doc,
          genRsp 200 "put ok"
            (some [("id", (info.lookup "_id").getD .vnull),
                   ("seq", (info.lookup "seq").getD .vnull)]))

/-! ## processor.go: Init -/

/-- `Index` (index.go): a declared index. -/
structure Index where
  Key : List String
  Unique : Bool
deriving Repr, DecidableEq

/-- `Processor` (processor.go): the configuration the model needs.  The
`DataStruct` reflection walk (`BuildFieldSet`) happens outside the model:
`FieldSet` holds its compiled output.  Handler functions and the
db/table-name closures are outside the model. -/
structure Processor where
  Biz : String
  TableName : String := ""
  URLPath : String := ""
  SearchFields : List String := []
  RegexSearchFields : List String := []
  CreateOnlyFields : List String := []
  ReadOnlyFields : List String := []
  Indexes : List Index := []
  FieldSet : FieldSet

/-- The four required-field checks of `Processor.Init` (processor.go
lines 94-105), in source order. -/
def requiredFieldsCheck (fs : FieldSet) : Option String :=
  if (fs.FMap.lookup "id").isNone then some "struct must contain id field"
  else if (fs.FMap.lookup "btime").isNone then some "struct must contain btime field"
  else if (fs.FMap.lookup "mtime").isNone then some "struct must contain mtime field"
  else if (fs.FMap.lookup "seq").isNone then some "struct must contain seq field"
  else none

/-- `Processor.Init` (processor.go): defaults, required-field checks,
search/regex/index validation, policy marking.  Handler-slot defaulting
assigns function values and is outside the model. -/
def Processor.Init (p : Processor) : Except String Processor :=
  if p.Biz = "" then .error "biz is empty"
  else
    let p := { p with
      TableName := if p.TableName = "" then p.Biz else p.TableName,
      URLPath := if p.URLPath = "" then "/" ++ p.Biz else p.URLPath }
    match requiredFieldsCheck p.FieldSet with
    | some e => .error e
    | none =>
      match p.FieldSet.CheckSearchFields p.SearchFields with
      | some e => .error e
      | none =>
        match p.FieldSet.CheckRegexSearchFields p.RegexSearchFields with
        | some e => .error e
        | none =>
          match p.Indexes.mapM
              (fun idx => (p.FieldSet.CheckIndexFields idx.Key).map
                (fun ff => { idx with Key := ff })) with
          | .error e => .error e
          | .ok idxs =>
            .ok { p with
              Indexes := idxs,
              FieldSet :=
                (p.FieldSet.SetCreateOnlyFields p.CreateOnlyFields).SetReadOnlyFields
                  p.ReadOnlyFields }

/-- `Processor.Load` (processor.go): the handler registrations a loaded
processor performs, as (method, pattern) pairs. -/
def Processor.Load (p : Processor) : List (String × String) :=
  [("POST", p.URLPath),
   ("PUT", p.URLPath ++ "/\x7bid\x7d"),
   ("PATCH", p.URLPath ++ "/\x7bid\x7d"),
   ("GET", p.URLPath ++ "/\x7bid\x7d"),
   ("GET", p.URLPath),
   ("DELETE", p.URLPath ++ "/\x7bid\x7d"),
   ("POST", p.URLPath ++ "/__trigger")]

/-- Initialization followed by registration: `Load` runs only if `Init`
returned nil, so a failed `Init` registers nothing. -/
def Processor.initThenLoad (p : Processor) : Except String (List (String × String)) :=
  (p.Init).map Processor.Load

/-! ## index.go: the index-ensure queue -/

/-- `IndexToEnsureStruct` (index.go): where to ensure indexes.  The
`Processor` pointer it carries does not influence queue membership and is
outside the model. -/
structure IndexToEnsureStruct where
  DB : String
  Table : String
deriving Repr, DecidableEq

/-- `getIndexMapKey` (index.go). -/
def getIndexMapKey (db table : String) : String := db ++ "|" ++ table

/-- `IndexEnsureList` (index.go): the dedup map plus the FIFO list.  All
operations run under the structure's mutex, so behaviour is the
interleaving-free sequence of operations modelled here. -/
structure IndexEnsureList where
  indexToEnsureMap : List (String × IndexToEnsureStruct)
  indexToEnsureList : List String
deriving Repr, DecidableEq

/-- `Init` (index.go). -/
def IndexEnsureList.InitEmpty : IndexEnsureList :=
  { indexToEnsureMap := [], indexToEnsureList := [] }

/-- `Push` (index.go): a nil pointer is ignored; a key already present in
the lookup map is ignored; otherwise record the item and append the key. -/
def IndexEnsureList.Push (l : IndexEnsureList) (idx : Option IndexToEnsureStruct) :
    IndexEnsureList :=
  match idx with
  | none => l
  | some idx =>
    let k := getIndexMapKey idx.DB idx.Table
    if (l.indexToEnsureMap.lookup k).isSome then l
    else
      { indexToEnsureMap := l.indexToEnsureMap ++ [(k, idx)],
        indexToEnsureList := l.indexToEnsureList ++ [k] }

/-- `Pop` (index.go): take the front key, drop it from both structures,
and return its item (`none` if the list is empty or the map misses the
key). -/
def IndexEnsureList.Pop (l : IndexEnsureList) : IndexEnsureList × Option IndexToEnsureStruct :=
  match l.indexToEnsureList with
  | [] => (l, none)
  | k :: rest =>
    match l.indexToEnsureMap.lookup k with
    | none => ({ l with indexToEnsureList := rest }, none)
    | some idx =>
      ({ indexToEnsureMap := eraseAllKey l.indexToEnsureMap k,
         indexToEnsureList := rest }, some idx)

/-- One serialized queue operation (the mutex serializes concurrent
callers). -/
inductive QueueOp where
  | push (idx : Option IndexToEnsureStruct)
  | pop
deriving Repr, DecidableEq

/-- Apply one queue operation. -/
def applyOp (s : IndexEnsureList) : QueueOp → IndexEnsureList
  | .push idx => s.Push idx
  | .pop => (s.Pop).1

/-- Apply a sequence of queue operations. -/
def applyOps (s : IndexEnsureList) (ops : List QueueOp) : IndexEnsureList :=
  ops.foldl applyOp s

/-- The queue invariant: no key is queued twice, and the lookup map's key
set is exactly the set of queued keys. -/
def QueueInv (s : IndexEnsureList) : Prop :=
  s.indexToEnsureList.Nodup ∧
    ∀ k, (s.indexToEnsureMap.lookup k).isSome ↔ k ∈ s.indexToEnsureList


/-- Decidable equality for `Except` results. -/
instance {ε α : Type} [DecidableEq ε] [DecidableEq α] : DecidableEq (Except ε α) :=
  fun a b =>
    match a, b with
    | .ok x, .ok y =>
      if h : x = y then isTrue (by rw [h]) else isFalse (fun e => h (by cases e; rfl))
    | .error x, .error y =>
      if h : x = y then isTrue (by rw [h]) else isFalse (fun e => h (by cases e; rfl))
    | .ok _, .error _ => isFalse (fun e => by cases e)
    | .error _, .ok _ => isFalse (fun e => by cases e)

/-! ## Claim-side definition for the filter-zero comparison -/

/-- Modelled from the claim for the null/zero filter equivalence: the
kind-zero value "(e.g. 0 for Int, empty string for String, false for
Bool)" as it reaches the filter compiler through the JSON query grammar,
where every number decodes to float64. -/
def zeroJson (kind : Nat) : GoValue :=
  if kind = KindBool then .vbool false
  else if kind = KindInt ∨ kind = KindUint ∨ kind = KindFloat then .vfloat 0
  else if kind = KindString then .vstring ""
  else if kind = KindObject then .vobj []
  else if KindArrayBase < kind ∧ kind < KindArrayEnd then .varr []
  else if KindMapBase < kind ∧ kind < KindMapEnd then .vobj []
  else .vnull

/-- The 18 kinds a compiled schema can contain (plus the root Object):
six base kinds and their array and map forms. -/
def validKinds : List Nat :=
  [KindBool, KindInt, KindUint, KindFloat, KindString, KindObject,
   KindArrayBool, KindArrayInt, KindArrayUint, KindArrayFloat,
   KindArrayString, KindArrayObject,
   KindMapBool, KindMapInt, KindMapUint, KindMapFloat,
   KindMapString, KindMapObject]


/-! ## Concrete fixtures for counterexamples and witnesses -/

/-- A sample compiled schema: the four required fields, an Int field `n`,
a Float field `f`, an Object field `a` with sub-field `a.b`, a
map-of-bool field `m`, and an array-of-object field `arr`. -/
def fsSample : FieldSet :=
  { FMap := [("", { Kind := KindObject }), ("id", { Kind := KindString }),
             ("btime", { Kind := KindInt }), ("mtime", { Kind := KindInt }),
             ("seq", { Kind := KindString }), ("n", { Kind := KindInt }),
             ("f", { Kind := KindFloat }), ("a", { Kind := KindObject }),
             ("a.b", { Kind := KindInt }), ("m", { Kind := KindMapBool }),
             ("arr", { Kind := KindArrayObject }), ("arr.c", { Kind := KindInt })],
    FSli := ["id", "btime", "mtime", "seq", "n", "f", "a", "a.b", "m", "arr", "arr.c"] }

/-- A schema with two sibling fields `ab` and `abc`: `abc` is not `ab` and
is not beneath `ab` in the dot hierarchy, but `ab` is a string prefix of
`abc`. -/
def fsAB : FieldSet :=
  { FMap := [("", { Kind := KindObject }), ("ab", { Kind := KindString }),
             ("abc", { Kind := KindString })],
    FSli := ["ab", "abc"] }

/-- The six validator violation reasons (field.go `check`). -/
def reasonsList : List String :=
  ["unknown", "read only", "create only", "dot not allow", "dot invalid",
   "type mismatch"]

/-- Is the dynamic value one of Go's numeric types (the inputs the numeric
coercers accept)? -/
def GoValue.isNumeric : GoValue → Bool
  | .vint _ => true
  | .vuint _ => true
  | .vfloat _ => true
  | _ => false

/-- A processor over the sample schema (which has all four required
fields). -/
def pGood : Processor := { Biz := "t", FieldSet := fsSample }

/-- A processor over a schema lacking `id`, `btime`, `mtime` and `seq`. -/
def pBad : Processor := { Biz := "t", FieldSet := fsAB }

/-- The per-entry effect of `SetCreateOnlyFields` for one configured name. -/
def markFCO (field k : String) (f : Field) : Field :=
  if strHasPref k field then { f with CreateOnly := true } else f

/-- The per-entry effect of `SetReadOnlyFields` for one configured name. -/
def markFRO (field k : String) (f : Field) : Field :=
  if strHasPref k field then { f with ReadOnly := true } else f

/-- The document `defaultPut` assembles before consulting the prior
version: the validated, renamed body with `btime`/`mtime` stamped `now`
and `seq` stamped `genSeq 0`. -/
def putInfoBase (fs : FieldSet) (body : Doc) (id : String) (now : Int) : Doc :=
  docSet (docSet (docSet
      (fs.InReplace (fs.CheckObject (docSet body "id" (.vstring id)) false).1)
      "btime" (.vint now)) "mtime" (.vint now)) "seq" (.vstring (genSeq 0))

/-- The success response `defaultPut` builds from the final document. -/
def putRsp (info : Doc) : Rsp :=
  genRsp 200 "put ok"
    (some [("id", (info.lookup "_id").getD .vnull),
           ("seq", (info.lookup "seq").getD .vnull)])

/-! ## Helper lemmas -/

theorem wrapI64_id {n : Int} (h1 : -i64Half ≤ n) (h2 : n < i64Half) : wrapI64 n = n := by
  unfold wrapI64 i64Half at *
  omega

theorem ratTrunc_eq_floor {q : Rat} (h : 0 ≤ q) : ratTrunc q = ⌊q⌋ := by
  rw [Rat.floor_def]
  exact Int.tdiv_eq_ediv (Rat.num_nonneg.mpr h) (Int.natCast_nonneg q.den)

theorem ratTrunc_eq_ceil {q : Rat} (h : q ≤ 0) : ratTrunc q = ⌈q⌉ := by
  have h1 : (0 : Rat) ≤ -q := by linarith
  have h2 : ratTrunc (-q) = ⌊-q⌋ := ratTrunc_eq_floor h1
  unfold ratTrunc at *
  rw [Rat.neg_num, Rat.neg_den, Int.neg_tdiv] at h2
  rw [Int.floor_neg] at h2
  omega

theorem lookup_append {β : Type} (l₁ l₂ : List (String × β)) (k : String) :
    (l₁ ++ l₂).lookup k = ((l₁.lookup k).or (l₂.lookup k)) := by
  induction l₁ with
  | nil => simp [List.lookup]
  | cons hd tl ih =>
    obtain ⟨k2, v⟩ := hd
    cases hb : (k == k2) with
    | true => simp [List.lookup, hb]
    | false => simp [List.lookup, hb, ih]

theorem lookup_eraseAllKey_ne {β : Type} (l : List (String × β)) (k k2 : String)
    (h : ¬ k2 = k) :
    (eraseAllKey l k).lookup k2 = l.lookup k2 := by
  induction l with
  | nil => simp [eraseAllKey]
  | cons hd tl ih =>
    obtain ⟨k3, v⟩ := hd
    by_cases h3 : k3 = k
    · subst h3
      have hb : (k2 == k3) = false := by simpa using h
      simp [eraseAllKey, List.lookup, hb, ih]
    · cases hb : (k2 == k3) with
      | true => simp [eraseAllKey, h3, List.lookup, hb]
      | false => simp [eraseAllKey, h3, List.lookup, hb, ih]

theorem lookup_eraseAllKey_self {β : Type} (l : List (String × β)) (k : String) :
    (eraseAllKey l k).lookup k = none := by
  induction l with
  | nil => simp [eraseAllKey]
  | cons hd tl ih =>
    obtain ⟨k3, v⟩ := hd
    by_cases h3 : k3 = k
    · simp [eraseAllKey, h3, ih]
    · have hb : (k == k3) = false := by simpa using fun e => h3 e.symm
      simp [eraseAllKey, h3, List.lookup, hb, ih]

theorem push_preserves {s : IndexEnsureList} (idx : Option IndexToEnsureStruct)
    (h : QueueInv s) : QueueInv (s.Push idx) := by
  obtain ⟨hnd, hmem⟩ := h
  cases idx with
  | none => exact ⟨hnd, hmem⟩
  | some i =>
    cases hk : (s.indexToEnsureMap.lookup (getIndexMapKey i.DB i.Table)) with
    | some v =>
      have heq : s.Push (some i) = s := by simp [IndexEnsureList.Push, hk]
      rw [heq]
      exact ⟨hnd, hmem⟩
    | none =>
      have hpush : s.Push (some i) =
          { indexToEnsureMap := s.indexToEnsureMap ++ [(getIndexMapKey i.DB i.Table, i)],
            indexToEnsureList := s.indexToEnsureList ++ [getIndexMapKey i.DB i.Table] } := by
        simp [IndexEnsureList.Push, hk]
      rw [hpush]
      have hnotmem : getIndexMapKey i.DB i.Table ∉ s.indexToEnsureList := by
        intro hcon
        have hsm := (hmem _).mpr hcon
        rw [hk] at hsm
        simp at hsm
      constructor
      · simp [List.nodup_append, hnd, hnotmem]
      · intro k2
        rw [lookup_append]
        by_cases h2 : k2 = getIndexMapKey i.DB i.Table
        · subst h2
          simp [List.lookup, hk]
        · have hb : (k2 == getIndexMapKey i.DB i.Table) = false := by simpa using h2
          simp [List.lookup, hb, hmem k2, h2]

theorem pop_preserves {s : IndexEnsureList} (h : QueueInv s) : QueueInv (s.Pop).1 := by
  obtain ⟨hnd, hmem⟩ := h
  cases hl : s.indexToEnsureList with
  | nil =>
    have heq : (s.Pop).1 = s := by simp [IndexEnsureList.Pop, hl]
    rw [heq]
    exact ⟨hnd, hmem⟩
  | cons k rest =>
    cases hh : s.indexToEnsureMap.lookup k with
    | none =>
      exfalso
      have hmm := (hmem k).mpr (by rw [hl]; exact List.mem_cons_self k rest)
      rw [hh] at hmm
      simp at hmm
    | some i =>
      have hpop : (s.Pop).1 =
          { indexToEnsureMap := eraseAllKey s.indexToEnsureMap k,
            indexToEnsureList := rest } := by
        simp [IndexEnsureList.Pop, hl, hh]
      rw [hpop]
      have hnd2 : (k :: rest).Nodup := hl ▸ hnd
      constructor
      · exact (List.nodup_cons.mp hnd2).2
      · intro k2
        by_cases h2 : k2 = k
        · subst h2
          rw [lookup_eraseAllKey_self]
          simp only [Option.isSome_none, Bool.false_eq_true, false_iff]
          exact (List.nodup_cons.mp hnd2).1
        · rw [lookup_eraseAllKey_ne _ _ _ h2, hmem k2, hl]
          simp [h2]

theorem applyOp_preserves {s : IndexEnsureList} (op : QueueOp) (h : QueueInv s) :
    QueueInv (applyOp s op) := by
  cases op with
  | push idx => exact push_preserves idx h
  | pop => exact pop_preserves h

theorem applyOps_preserves {s : IndexEnsureList} (ops : List QueueOp) (h : QueueInv s) :
    QueueInv (applyOps s ops) := by
  induction ops generalizing s with
  | nil => exact h
  | cons op rest ih => exact ih (applyOp_preserves op h)

/-! ## Claim theorems -/

/-- C8: starting from the empty queue, every sequence of Push/Pop
operations preserves the invariant that the FIFO list holds each key at
most once and that the lookup map's key set equals the set of queued
keys; moreover a duplicate Push of the same item is a no-op (pushing the
same item twice equals pushing it once, so any run of pushes while the
key is queued leaves exactly one queued item). -/
theorem restful_C8 :
    (∀ ops : List QueueOp, QueueInv (applyOps IndexEnsureList.InitEmpty ops)) ∧
    (∀ (ops : List QueueOp) (k : String),
      (applyOps IndexEnsureList.InitEmpty ops).indexToEnsureList.count k ≤ 1) ∧
    (∀ (s : IndexEnsureList) (idx : Option IndexToEnsureStruct),
      (s.Push idx).Push idx = s.Push idx) := by
  have hinit : QueueInv IndexEnsureList.InitEmpty := by
    constructor
    · simp [IndexEnsureList.InitEmpty]
    · intro k
      simp [IndexEnsureList.InitEmpty, List.lookup]
  refine ⟨fun ops => applyOps_preserves ops hinit, fun ops k => ?_, fun s idx => ?_⟩
  · exact List.nodup_iff_count_le_one.mp (applyOps_preserves ops hinit).1 k
  · cases idx with
    | none => rfl
    | some i =>
      cases hk : (s.indexToEnsureMap.lookup (getIndexMapKey i.DB i.Table)) with
      | some v => simp [IndexEnsureList.Push, hk]
      | none =>
        have h1 : s.Push (some i) =
            { indexToEnsureMap := s.indexToEnsureMap ++ [(getIndexMapKey i.DB i.Table, i)],
              indexToEnsureList := s.indexToEnsureList ++ [getIndexMapKey i.DB i.Table] } := by
          simp [IndexEnsureList.Push, hk]
        rw [h1]
        simp [IndexEnsureList.Push, lookup_append, hk, List.lookup]

/-- C5: numeric-to-Int coercion truncates toward zero (3.9 yields 3, not
4; -3.9 yields -3; in general a nonnegative float coerces to its floor
and a nonpositive one to its ceiling, within int64 range), and Bool
coercion requires an exact boolean: the string "true" and every numeric
input fail, and a success forces the input to have been a boolean. -/
theorem restful_C5 :
    (CheckInt (.vfloat (mkRat 39 10)) = some (.vint 3)) ∧
    (¬ CheckInt (.vfloat (mkRat 39 10)) = some (.vint 4)) ∧
    (CheckInt (.vfloat (mkRat (-39) 10)) = some (.vint (-3))) ∧
    (∀ q : Rat, 0 ≤ q → ⌊q⌋ < i64Half → CheckInt (.vfloat q) = some (.vint ⌊q⌋)) ∧
    (∀ q : Rat, q ≤ 0 → -i64Half ≤ ⌈q⌉ → CheckInt (.vfloat q) = some (.vint ⌈q⌉)) ∧
    (CheckBool (.vstring "true") = none) ∧
    (∀ q : Rat, CheckBool (.vfloat q) = none) ∧
    (∀ n : Int, CheckBool (.vint n) = none) ∧
    (∀ n : Nat, CheckBool (.vuint n) = none) ∧
    (∀ v b, CheckBool v = some b → v = b) := by
  refine ⟨by decide, by decide, by decide, ?_, ?_, by decide,
    fun q => rfl, fun n => rfl, fun n => rfl, ?_⟩
  · intro q h1 h2
    have hf : ratTrunc q = ⌊q⌋ := ratTrunc_eq_floor h1
    have h0 : (0 : Int) ≤ ⌊q⌋ := Int.floor_nonneg.mpr h1
    have hr : wrapI64 (ratTrunc q) = ⌊q⌋ := by
      rw [hf]
      exact wrapI64_id (by unfold i64Half; omega) h2
    simp [CheckInt, hr]
  · intro q h1 h2
    have hf : ratTrunc q = ⌈q⌉ := ratTrunc_eq_ceil h1
    have h0 : ⌈q⌉ ≤ 0 := Int.ceil_le.mpr (by exact_mod_cast h1)
    have hr : wrapI64 (ratTrunc q) = ⌈q⌉ := by
      rw [hf]
      exact wrapI64_id h2 (by unfold i64Half; omega)
    simp [CheckInt, hr]
  · intro v b h
    cases v <;> simp [CheckBool] at h
    rw [← h]

/-- C5 witness: the floor component applied at the concrete float 3.5. -/
theorem restful_C5_witness :
    CheckInt (.vfloat (mkRat 7 2)) = some (.vint ⌊(mkRat 7 2 : Rat)⌋) ∧
      ⌊(mkRat 7 2 : Rat)⌋ = 3 :=
  ⟨restful_C5.2.2.2.1 (mkRat 7 2) (by decide) (by decide), by decide⟩

/-- C10: Uint coercion accepts every numeric input, wrapping negatives
two's-complement modulo 2^64: -1 maps to 18446744073709551615, a negative
float (-1.5, truncated to -1) likewise, and in general a signed input n
yields the unique m < 2^64 congruent to n.  (Float-to-uint64 conversion
of negative values is modelled with the amd64 wrap semantics.) -/
theorem restful_C10 :
    (∀ v : GoValue, v.isNumeric = true → (CheckUint v).isSome = true) ∧
    (CheckUint (.vint (-1)) = some (.vuint 18446744073709551615)) ∧
    (CheckUint (.vfloat (mkRat (-3) 2)) = some (.vuint 18446744073709551615)) ∧
    (∀ n : Int, ∃ m : Nat, CheckUint (.vint n) = some (.vuint m) ∧ m < u64Mod ∧
      (m : Int) % (u64Mod : Int) = n % (u64Mod : Int)) ∧
    (∀ q : Rat, ∃ m : Nat, CheckUint (.vfloat q) = some (.vuint m)) := by
  refine ⟨?_, by decide, by decide, ?_, fun q => ⟨_, rfl⟩⟩
  · intro v h
    cases v <;> simp [GoValue.isNumeric] at h <;> simp [CheckUint]
  · intro n
    have hcast : (u64Mod : Int) = 18446744073709551616 := by norm_num [u64Mod]
    refine ⟨wrapU64 n, rfl, ?_, ?_⟩
    · unfold wrapU64 u64Mod
      omega
    · unfold wrapU64
      rw [hcast]
      omega

/-- C10 witness: the never-fails component applied at the numeric input
-1. -/
theorem restful_C10_witness :
    (GoValue.vint (-1)).isNumeric = true ∧ (CheckUint (.vint (-1))).isSome = true :=
  ⟨by decide, restful_C10.1 (.vint (-1)) (by decide)⟩

/-- C4: evaluation of the array/map coercers.  For `KindArrayBool` the
switch in `ParseKindArray` (whose first case reads `KindBool` where
`KindArrayBool` would fit the pattern) matches nothing, so ANY input
array -- including one whose elements the Bool coercer rejects --
succeeds as the empty array with no element validated, contradicting the
documented element-wise coercion; the other five array kinds do coerce
element-wise, and map coercion always returns the original mapping. -/
theorem restful_C4 :
    (ParseKindArray [.vstring "x"] KindArrayBool = some []) ∧
    (∀ m kind r, ParseKindMap m kind = some r → r = m) ∧
    (ParseKindValue (.varr [.vstring "x"]) KindArrayBool = some (.varr [])) ∧
    (∀ elems : List GoValue, ParseKindArray elems KindArrayBool = some []) ∧
    (CheckBool (.vstring "x") = none) ∧
    (ParseKindArray [.vstring "x"] KindArrayString = some [.vstring "x"]) ∧
    (ParseKindArray [.vstring "x"] KindArrayInt = none) ∧
    (∀ m kind, ParseKindMap m kind = some m ∨ ParseKindMap m kind = none) := by
  refine ⟨by decide, ?_, by decide, ?_, by decide, by decide, by decide, ?_⟩
  · intro m kind r h
    unfold ParseKindMap at h
    split at h
    · exact (Option.some.inj h).symm
    · cases h
  · intro elems
    norm_num [ParseKindArray, KindArrayBool, KindArrayBase, KindBool, KindArrayInt,
      KindInt, KindArrayUint, KindUint, KindArrayFloat, KindFloat, KindArrayString,
      KindString, KindArrayObject, KindObject]
  · intro m kind
    unfold ParseKindMap
    split
    · exact Or.inl rfl
    · exact Or.inr rfl

/-- C4 witness: the map component applied at a concrete map value. -/
theorem restful_C4_witness :
    ParseKindMap [("a", GoValue.vbool true)] KindMapBool =
        some [("a", GoValue.vbool true)] ∧
      ([("a", GoValue.vbool true)] : Doc) = [("a", GoValue.vbool true)] :=
  ⟨by decide, restful_C4.2.1 [("a", GoValue.vbool true)] KindMapBool _ (by decide)⟩

theorem mem_RemoveDupArray (l : List String) (x : String) :
    x ∈ RemoveDupArray l ↔ x ∈ l := by
  induction l with
  | nil => simp [RemoveDupArray]
  | cons a as ih =>
    simp only [RemoveDupArray, List.mem_cons, List.mem_filter, ih, decide_not,
      Bool.not_eq_eq_eq_not, Bool.not_true, decide_eq_false_iff_not]
    by_cases h : x = a
    · simp [h]
    · simp [h]

theorem lookup_mapEntry (g : String → Field → Field) (m : List (String × Field))
    (k : String) :
    (m.map (fun kv => (kv.1, g kv.1 kv.2))).lookup k = (m.lookup k).map (g k) := by
  induction m with
  | nil => simp
  | cons hd tl ih =>
    obtain ⟨k2, v⟩ := hd
    cases hb : (k == k2) with
    | true =>
      have : k = k2 := by simpa using hb
      subst this
      simp [List.lookup, hb]
    | false => simp [List.lookup, hb, ih]

theorem markCO_as_entry (field : String) (m : List (String × Field)) :
    m.map (fun kv =>
        if strHasPref kv.1 field then (kv.1, { kv.2 with CreateOnly := true }) else kv) =
      m.map (fun kv => (kv.1, markFCO field kv.1 kv.2)) := by
  apply List.map_congr_left
  intro kv _
  obtain ⟨a, b⟩ := kv
  by_cases h : strHasPref a field = true <;> simp [markFCO, h]

theorem markRO_as_entry (field : String) (m : List (String × Field)) :
    m.map (fun kv =>
        if strHasPref kv.1 field then (kv.1, { kv.2 with ReadOnly := true }) else kv) =
      m.map (fun kv => (kv.1, markFRO field kv.1 kv.2)) := by
  apply List.map_congr_left
  intro kv _
  obtain ⟨a, b⟩ := kv
  by_cases h : strHasPref a field = true <;> simp [markFRO, h]

theorem lookup_foldl_markCO :
    ∀ (fields : List String) (m : List (String × Field)) (k : String),
    (fields.foldl (fun m field =>
        m.map (fun kv =>
          if strHasPref kv.1 field then (kv.1, { kv.2 with CreateOnly := true }) else kv))
      m).lookup k =
      (m.lookup k).map (fun f =>
        if fields.any (fun fd => strHasPref k fd) then { f with CreateOnly := true } else f)
  | [], m, k => by
    cases h : m.lookup k <;> simp [h]
  | fd :: rest, m, k => by
    simp only [List.foldl_cons]
    rw [lookup_foldl_markCO rest _ k, markCO_as_entry, lookup_mapEntry]
    rw [Option.map_map]
    cases h : m.lookup k with
    | none => simp
    | some f =>
      by_cases h1 : strHasPref k fd = true <;>
        by_cases h2 : (rest.any (fun fd => strHasPref k fd)) = true <;>
          simp [markFCO, h1, h2, List.any_cons, Function.comp]

theorem lookup_foldl_markRO :
    ∀ (fields : List String) (m : List (String × Field)) (k : String),
    (fields.foldl (fun m field =>
        m.map (fun kv =>
          if strHasPref kv.1 field then (kv.1, { kv.2 with ReadOnly := true }) else kv))
      m).lookup k =
      (m.lookup k).map (fun f =>
        if fields.any (fun fd => strHasPref k fd) then { f with ReadOnly := true } else f)
  | [], m, k => by
    cases h : m.lookup k <;> simp [h]
  | fd :: rest, m, k => by
    simp only [List.foldl_cons]
    rw [lookup_foldl_markRO rest _ k, markRO_as_entry, lookup_mapEntry]
    rw [Option.map_map]
    cases h : m.lookup k with
    | none => simp
    | some f =>
      by_cases h1 : strHasPref k fd = true <;>
        by_cases h2 : (rest.any (fun fd => strHasPref k fd)) = true <;>
          simp [markFRO, h1, h2, List.any_cons, Function.comp]

/-- C9 (amended): the policy setters mark exactly the `FMap` entries whose
path has a configured name as a STRING prefix -- the prefix's own entry
and everything beneath it in the dot hierarchy, but also any other path
that merely extends the string (see the counterexample).  Entries without
such a string prefix keep their previous policy, and each setter leaves
the other policy flag untouched. -/
theorem restful_C9 (fs : FieldSet) (fields : List String) (k : String) :
    ((fs.SetCreateOnlyFields fields).IsFieldCreateOnly k = true ↔
      (fs.IsFieldCreateOnly k = true ∨
        ((fs.FMap.lookup k).isSome = true ∧ ∃ f ∈ fields, strHasPref k f = true))) ∧
    ((fs.SetCreateOnlyFields fields).IsFieldReadOnly k = fs.IsFieldReadOnly k) ∧
    ((fs.SetReadOnlyFields fields).IsFieldReadOnly k = true ↔
      (fs.IsFieldReadOnly k = true ∨
        ((fs.FMap.lookup k).isSome = true ∧ ∃ f ∈ fields, strHasPref k f = true))) ∧
    ((fs.SetReadOnlyFields fields).IsFieldCreateOnly k = fs.IsFieldCreateOnly k) := by
  have hany : ∀ (fds : List String),
      (fds.any (fun fd => strHasPref k fd) = true) ↔ ∃ f ∈ fds, strHasPref k f = true := by
    intro fds
    simp [List.any_eq_true]
  refine ⟨?_, ?_, ?_, ?_⟩
  · simp only [FieldSet.SetCreateOnlyFields, FieldSet.IsFieldCreateOnly,
      lookup_foldl_markCO]
    cases h : fs.FMap.lookup k with
    | none => simp
    | some f =>
      by_cases h2 : ((RemoveDupArray fields).any (fun fd => strHasPref k fd)) = true
      · have h3 : ∃ fd ∈ fields, strHasPref k fd = true := by
          obtain ⟨fd, hm, hp⟩ := (hany _).mp h2
          exact ⟨fd, (mem_RemoveDupArray _ _).mp hm, hp⟩
        simp [h2, h3]
      · have h3 : ¬ ∃ fd ∈ fields, strHasPref k fd = true := by
          intro ⟨fd, hm, hp⟩
          exact h2 ((hany _).mpr ⟨fd, (mem_RemoveDupArray _ _).mpr hm, hp⟩)
        simp [h2, h3]
  · simp only [FieldSet.SetCreateOnlyFields, FieldSet.IsFieldReadOnly,
      lookup_foldl_markCO]
    cases h : fs.FMap.lookup k with
    | none => simp
    | some f =>
      by_cases h2 : ((RemoveDupArray fields).any (fun fd => strHasPref k fd)) = true <;>
        simp [h2]
  · simp only [FieldSet.SetReadOnlyFields, FieldSet.IsFieldReadOnly,
      lookup_foldl_markRO]
    cases h : fs.FMap.lookup k with
    | none => simp
    | some f =>
      by_cases h2 : ((RemoveDupArray fields).any (fun fd => strHasPref k fd)) = true
      · have h3 : ∃ fd ∈ fields, strHasPref k fd = true := by
          obtain ⟨fd, hm, hp⟩ := (hany _).mp h2
          exact ⟨fd, (mem_RemoveDupArray _ _).mp hm, hp⟩
        simp [h2, h3]
      · have h3 : ¬ ∃ fd ∈ fields, strHasPref k fd = true := by
          intro ⟨fd, hm, hp⟩
          exact h2 ((hany _).mpr ⟨fd, (mem_RemoveDupArray _ _).mpr hm, hp⟩)
        simp [h2, h3]
  · simp only [FieldSet.SetReadOnlyFields, FieldSet.IsFieldCreateOnly,
      lookup_foldl_markRO]
    cases h : fs.FMap.lookup k with
    | none => simp
    | some f =>
      by_cases h2 : ((RemoveDupArray fields).any (fun fd => strHasPref k fd)) = true <;>
        simp [h2]

/-- C9 counterexample: configuring the prefix "ab" also marks the sibling
field "abc", which is not "ab" and is not beneath "ab" in the dot
hierarchy (it does not start with "ab."), contradicting the claim that
exactly the prefix and the entries beneath it are marked. -/
theorem restful_C9_counterexample :
    (fsAB.SetCreateOnlyFields ["ab"]).IsFieldCreateOnly "abc" = true ∧
    fsAB.IsFieldCreateOnly "abc" = false ∧
    ¬ "abc" = "ab" ∧ ¬ strHasPref "abc" "ab." = true ∧
    (fsAB.SetReadOnlyFields ["ab"]).IsFieldReadOnly "abc" = true ∧
    fsAB.IsFieldReadOnly "abc" = false := by decide

/-- C6 (amended): for every declared field whose kind is one of the valid
kinds EXCEPT Float, compiling a filter with value null and compiling one
with the field's kind-zero JSON value produce the same condition, namely
the null-or-kind-zero predicate.  (For Float the two differ: see the
counterexample; `IsEmpty`'s numeric guard `KindInt <= k < KindFloat`
leaves `KindFloat` outside every case, so the float zero is not treated
as empty.) -/
theorem restful_C6 (fs : FieldSet) (k : String) (kind : Nat)
    (hmem : fs.IsFieldMember k = (kind, true))
    (hvalid : kind ∈ validKinds) (hfloat : ¬ kind = KindFloat) :
    fs.BuildFilterObj [(k, .vnull)] [] = fs.BuildFilterObj [(k, zeroJson kind)] [] ∧
    fs.BuildFilterObj [(k, .vnull)] [] =
      .ok [(k, .vobj [("$in", .varr [.vnull, (EmptyValue kind).getD .vnull])])] := by
  have hv : kind = 1 ∨ kind = 6 ∨ kind = 11 ∨ kind = 14 ∨ kind = 24 ∨ kind = 25 ∨
      kind = 1001 ∨ kind = 1006 ∨ kind = 1011 ∨ kind = 1014 ∨ kind = 1024 ∨
      kind = 1025 ∨ kind = 2001 ∨ kind = 2006 ∨ kind = 2011 ∨ kind = 2014 ∨
      kind = 2024 ∨ kind = 2025 := by
    simpa [validKinds, KindBool, KindInt, KindUint, KindFloat, KindString, KindObject,
      KindArrayBool, KindArrayInt, KindArrayUint, KindArrayFloat, KindArrayString,
      KindArrayObject, KindMapBool, KindMapInt, KindMapUint, KindMapFloat,
      KindMapString, KindMapObject, KindArrayBase, KindMapBase] using hvalid
  have hnf : ¬ kind = 14 := by simpa [KindFloat] using hfloat
  rcases hv with rfl | rfl | rfl | rfl | rfl | rfl | rfl | rfl | rfl | rfl | rfl | rfl |
    rfl | rfl | rfl | rfl | rfl | rfl <;>
    first
    | exact absurd rfl hnf
    | constructor <;>
        simp [FieldSet.BuildFilterObj, buildFilterValue, hmem, zeroJson, IsEmpty, IsEmptyBool,
          IsEmptyNumber, IsEmptyString, IsEmptyObject, IsEmptyArray, EmptyValue,
          GoValue.isNull, KindInvalid, KindBool, KindInt, KindUint, KindFloat,
          KindString, KindObject, KindSimpleEnd, KindArrayBase, KindArrayEnd,
          KindMapBase, KindMapEnd, List.lookup]

/-- C6 witness: the equivalence applied to the Int field `n` of the
sample schema. -/
theorem restful_C6_witness :
    fsSample.BuildFilterObj [("n", .vnull)] [] =
        fsSample.BuildFilterObj [("n", zeroJson KindInt)] [] ∧
      fsSample.BuildFilterObj [("n", .vnull)] [] =
        .ok [("n", .vobj [("$in", .varr [.vnull, (EmptyValue KindInt).getD .vnull])])] :=
  restful_C6 fsSample "n" KindInt (by decide) (by decide) (by decide)

/-- C6 counterexample: for the Float field `f` (a valid, non-Invalid
kind), a null filter compiles to the null-or-zero predicate while the
kind-zero value 0 compiles to the exact match 0 -- two different
conditions, falsifying the claim's "for every field of non-Invalid
kind". -/
theorem restful_C6_counterexample :
    KindFloat ∈ validKinds ∧ ¬ KindFloat = KindInvalid ∧
    fsSample.IsFieldMember "f" = (KindFloat, true) ∧
    fsSample.BuildFilterObj [("f", .vnull)] [] =
      .ok [("f", .vobj [("$in", .varr [.vnull, .vint 0])])] ∧
    fsSample.BuildFilterObj [("f", zeroJson KindFloat)] [] = .ok [("f", .vfloat 0)] ∧
    ¬ fsSample.BuildFilterObj [("f", .vnull)] [] =
        fsSample.BuildFilterObj [("f", zeroJson KindFloat)] [] := by decide

theorem requiredFieldsCheck_some (fs : FieldSet)
    (h : (fs.FMap.lookup "id").isNone = true ∨ (fs.FMap.lookup "btime").isNone = true ∨
      (fs.FMap.lookup "mtime").isNone = true ∨ (fs.FMap.lookup "seq").isNone = true) :
    ∃ e, requiredFieldsCheck fs = some e := by
  unfold requiredFieldsCheck
  split_ifs <;> first | exact ⟨_, rfl⟩ | simp_all

/-- C7: a processor whose compiled schema lacks any of the four paths
`id`, `btime`, `mtime`, `seq` fails initialization with an error, and
since `Load` only runs on a nil `Init` error, no handler is registered;
when all four are present, the required-field check itself passes. -/
theorem restful_C7 (p : Processor) :
    (((p.FieldSet.FMap.lookup "id").isNone = true ∨
      (p.FieldSet.FMap.lookup "btime").isNone = true ∨
      (p.FieldSet.FMap.lookup "mtime").isNone = true ∨
      (p.FieldSet.FMap.lookup "seq").isNone = true) →
      ∃ e, p.initThenLoad = .error e) ∧
    (((p.FieldSet.FMap.lookup "id").isSome = true ∧
      (p.FieldSet.FMap.lookup "btime").isSome = true ∧
      (p.FieldSet.FMap.lookup "mtime").isSome = true ∧
      (p.FieldSet.FMap.lookup "seq").isSome = true) →
      requiredFieldsCheck p.FieldSet = none) := by
  constructor
  · intro h
    by_cases hbiz : p.Biz = ""
    · exact ⟨"biz is empty",
        by simp [Processor.initThenLoad, Processor.Init, hbiz, Except.map]⟩
    · obtain ⟨e, he⟩ := requiredFieldsCheck_some p.FieldSet h
      exact ⟨e, by simp [Processor.initThenLoad, Processor.Init, hbiz, he, Except.map]⟩
  · intro ⟨h1, h2, h3, h4⟩
    obtain ⟨v1, hv1⟩ := Option.isSome_iff_exists.mp h1
    obtain ⟨v2, hv2⟩ := Option.isSome_iff_exists.mp h2
    obtain ⟨v3, hv3⟩ := Option.isSome_iff_exists.mp h3
    obtain ⟨v4, hv4⟩ := Option.isSome_iff_exists.mp h4
    simp [requiredFieldsCheck, hv1, hv2, hv3, hv4]

/-- C7 witness: the missing-field component applied to a processor over a
schema lacking the required paths, and the check-passes component applied
to one that has them. -/
theorem restful_C7_witness :
    (∃ e, pBad.initThenLoad = .error e) ∧ requiredFieldsCheck pGood.FieldSet = none :=
  ⟨(restful_C7 pBad).1 (by decide), (restful_C7 pGood).2 (by decide)⟩

theorem lookup_docSet_self (d : Doc) (k : String) (v : GoValue) :
    (docSet d k v).lookup k = some v := by
  induction d with
  | nil => simp [docSet, List.lookup]
  | cons hd tl ih =>
    obtain ⟨k2, v2⟩ := hd
    by_cases h : k2 = k
    · simp [docSet, h, List.lookup]
    · have hb : (k == k2) = false := by simpa using fun e => h e.symm
      simp [docSet, h, List.lookup, hb, ih]

theorem lookup_docSet_other (d : Doc) (k k2 : String) (v : GoValue)
    (h : ¬ k2 = k) : (docSet d k v).lookup k2 = d.lookup k2 := by
  induction d with
  | nil =>
    have hb : (k2 == k) = false := by simpa using h
    simp [docSet, List.lookup, hb]
  | cons hd tl ih =>
    obtain ⟨k3, v3⟩ := hd
    by_cases h3 : k3 = k
    · subst h3
      have hb : (k2 == k3) = false := by simpa using h
      simp [docSet, List.lookup, hb]
    · cases hb : (k2 == k3) with
      | true => simp [docSet, h3, List.lookup, hb]
      | false => simp [docSet, h3, List.lookup, hb, ih]

theorem lookup_eq_none_of_not_mem_keys {β : Type} (l : List (String × β)) (k : String)
    (h : k ∉ l.map Prod.fst) : l.lookup k = none := by
  induction l with
  | nil => rfl
  | cons hd tl ih =>
    obtain ⟨k2, v⟩ := hd
    simp only [List.map_cons, List.mem_cons, not_or] at h
    have hb : (k == k2) = false := by simpa using h.1
    simp [List.lookup, hb, ih h.2]

theorem docMerge_lookup_not_mem (info : Doc) :
    ∀ (d : Doc) (k : String), info.lookup k = none →
      (docMerge d info).lookup k = d.lookup k := by
  induction info with
  | nil => intro d k _; rfl
  | cons hd tl ih =>
    intro d k h
    obtain ⟨k2, u⟩ := hd
    have hne : ¬ k = k2 := by
      intro e
      subst e
      simp [List.lookup] at h
    have htl : tl.lookup k = none := by
      have hb : (k == k2) = false := by simpa using hne
      simpa [List.lookup, hb] using h
    simp only [docMerge, List.foldl_cons]
    rw [show (List.foldl (fun acc kv => docSet acc kv.1 kv.2) (docSet d k2 u) tl) =
      docMerge (docSet d k2 u) tl from rfl]
    rw [ih (docSet d k2 u) k htl, lookup_docSet_other _ _ _ _ hne]

theorem docMerge_lookup_final (info : Doc) :
    ∀ (d : Doc) (k : String) (v : GoValue),
      (info.map Prod.fst).Nodup → info.lookup k = some v →
      (docMerge d info).lookup k = some v := by
  induction info with
  | nil => intro d k v _ h; simp [List.lookup] at h
  | cons hd tl ih =>
    intro d k v hnd h
    obtain ⟨k2, u⟩ := hd
    simp only [docMerge, List.foldl_cons]
    rw [show (List.foldl (fun acc kv => docSet acc kv.1 kv.2) (docSet d k2 u) tl) =
      docMerge (docSet d k2 u) tl from rfl]
    by_cases he : k = k2
    · subst he
      have hu : u = v := by
        simp [List.lookup] at h
        exact h
      subst hu
      have hk : k ∉ tl.map Prod.fst := (List.nodup_cons.mp (by simpa using hnd)).1
      have htl : tl.lookup k = none := lookup_eq_none_of_not_mem_keys tl k hk
      rw [docMerge_lookup_not_mem tl _ k htl, lookup_docSet_self]
    · have htl : tl.lookup k = some v := by
        have hb : (k == k2) = false := by simpa using he
        simpa [List.lookup, hb] using h
      exact ih (docSet d k2 u) k v (by simpa using (List.nodup_cons.mp (by simpa using hnd)).2) htl

theorem keys_docSet_sub (d : Doc) (k : String) (v : GoValue) (k2 : String)
    (h : k2 ∈ (docSet d k v).map Prod.fst) : k2 ∈ d.map Prod.fst ∨ k2 = k := by
  induction d with
  | nil => simpa [docSet] using h
  | cons hd tl ih =>
    obtain ⟨k3, v3⟩ := hd
    by_cases he : k3 = k
    · subst he
      simp only [docSet] at h
      simp only [if_true] at h
      simp only [List.map_cons, List.mem_cons] at h
      rcases h with h | h
      · exact Or.inr h
      · exact Or.inl (List.mem_cons_of_mem _ h)
    · simp only [docSet, he, if_false, List.map_cons, List.mem_cons] at h
      rcases h with h | h
      · exact Or.inl (by simp [h])
      · rcases ih h with hc | hc
        · exact Or.inl (by simp [hc])
        · exact Or.inr hc

theorem nodupKeys_docSet (d : Doc) (k : String) (v : GoValue)
    (h : (d.map Prod.fst).Nodup) : ((docSet d k v).map Prod.fst).Nodup := by
  induction d with
  | nil => simp [docSet]
  | cons hd tl ih =>
    obtain ⟨k2, v2⟩ := hd
    simp only [List.map_cons, List.nodup_cons] at h
    by_cases he : k2 = k
    · subst he
      simpa [docSet] using h
    · have htl := ih h.2
      have hmem : k2 ∉ (docSet tl k v).map Prod.fst := by
        intro hcon
        rcases keys_docSet_sub tl k v k2 hcon with hc | hc
        · exact h.1 hc
        · exact he hc
      simp only [docSet, he, if_false, List.map_cons, List.nodup_cons]
      exact ⟨hmem, htl⟩

theorem dbUpdateSet_none (db : List Doc) (sel : Doc → Bool) (info : Doc)
    (h : ∀ d ∈ db, sel d = false) : dbUpdateSet db sel info = none := by
  induction db with
  | nil => rfl
  | cons d ds ih =>
    have hd := h d (List.mem_cons_self d ds)
    simp [dbUpdateSet, hd, ih (fun d' hd' => h d' (List.mem_cons_of_mem d hd'))]

theorem dbUpdateSet_split (pre : List Doc) (d : Doc) (post : List Doc)
    (sel : Doc → Bool) (info : Doc)
    (hpre : ∀ d' ∈ pre, sel d' = false) (hd : sel d = true) :
    dbUpdateSet (pre ++ d :: post) sel info = some (pre ++ docMerge d info :: post) := by
  induction pre with
  | nil => simp [dbUpdateSet, hd]
  | cons p ps ih =>
    have hp := hpre p (List.mem_cons_self p ps)
    simp [dbUpdateSet, hp, ih (fun d' hd' => hpre d' (List.mem_cons_of_mem p hd'))]

/-- C1 (amended): for a conditional PATCH (no versioning opt-out) whose
seq parameter parses as the int64 `n` and whose body passes validation,
the compiled write predicate matches exactly the documents with `_id = id`
and `seq = s` (both compared as strings); when no document matches --
whether the id is absent or the stored seq differs -- the handler returns
the single ambiguous 400 "id not found or seq conflict" without touching
the store; when the first match is `d`, the store receives `d` with the
handler's `$set` document applied, whose stored seq is
`genSeq (wrapI64 (n+1))`: the decimal string of n+1 computed in 64-bit
signed arithmetic, with a result of 0 (n = -1) bumped to "1"; the 200
response carries that same seq. -/
theorem restful_C1 (fs : FieldSet) (db : List Doc) (id s : String) (n : Int)
    (body : Doc) (now : Int)
    (hparse : goParseInt64 s = some n)
    (hbody : (fs.CheckObject body true).2 = none)
    (hkeys : ((fs.InReplace (fs.CheckObject body true).1).map Prod.fst).Nodup) :
    (∀ d : Doc, matchIdSeq id s d = true ↔
      (d.lookup "_id" = some (.vstring id) ∧ d.lookup "seq" = some (.vstring s))) ∧
    ((∀ d ∈ db, matchIdSeq id s d = false) →
      defaultPatch fs db id s false body now =
        (db, genRsp 400 "id not found or seq conflict" none)) ∧
    (∀ pre d post, db = pre ++ d :: post →
      (∀ d' ∈ pre, matchIdSeq id s d' = false) → matchIdSeq id s d = true →
      defaultPatch fs db id s false body now =
        (pre ++ docMerge d
            (docSet (docSet (fs.InReplace (fs.CheckObject body true).1)
              "seq" (.vstring (genSeq (wrapI64 (n + 1))))) "mtime" (.vint now)) :: post,
         genRsp 200 "patch ok"
           (some [("id", .vstring id),
                  ("seq", .vstring (genSeq (wrapI64 (n + 1))))]))) ∧
    (∀ d : Doc,
      (docMerge d
          (docSet (docSet (fs.InReplace (fs.CheckObject body true).1)
            "seq" (.vstring (genSeq (wrapI64 (n + 1))))) "mtime" (.vint now))).lookup "seq"
        = some (.vstring (genSeq (wrapI64 (n + 1))))) := by
  have hs : ¬ s = "" := by
    intro h
    subst h
    rw [show goParseInt64 "" = none from rfl] at hparse
    cases hparse
  have hnext : nextSeq s = some (genSeq (wrapI64 (n + 1))) := by
    unfold nextSeq
    rw [hparse]
  have hseqlookup :
      (docSet (docSet (fs.InReplace (fs.CheckObject body true).1)
          "seq" (.vstring (genSeq (wrapI64 (n + 1))))) "mtime" (.vint now)).lookup "seq"
        = some (.vstring (genSeq (wrapI64 (n + 1)))) := by
    rw [lookup_docSet_other _ _ _ _ (by decide), lookup_docSet_self]
  have hkeys2 : (((docSet (docSet (fs.InReplace (fs.CheckObject body true).1)
      "seq" (.vstring (genSeq (wrapI64 (n + 1))))) "mtime" (.vint now)).map Prod.fst)).Nodup := by
    exact nodupKeys_docSet _ _ _ (nodupKeys_docSet _ _ _ hkeys)
  refine ⟨?_, ?_, ?_, ?_⟩
  · intro d
    simp only [matchIdSeq, matchId, Bool.and_eq_true]
    constructor
    · rintro ⟨h1, h2⟩
      constructor
      · cases hl : d.lookup "_id" with
        | none => rw [hl] at h1; simp at h1
        | some w =>
          rw [hl] at h1
          cases w <;> simp at h1
          rw [h1]
      · cases hl : d.lookup "seq" with
        | none => rw [hl] at h2; simp at h2
        | some w =>
          rw [hl] at h2
          cases w <;> simp at h2
          rw [h2]
    · rintro ⟨h1, h2⟩
      rw [h1, h2]
      simp
  · intro hnone
    simp [defaultPatch, hbody, hnext, hs, dbUpdateSet_none db _ _ hnone]
  · intro pre d post hdb hpre hd
    subst hdb
    simp [defaultPatch, hbody, hnext, hs, dbUpdateSet_split pre d post _ _ hpre hd,
      hseqlookup]
  · intro d
    exact docMerge_lookup_final _ d _ _ hkeys2 hseqlookup

/-- C1 witness: the conditional-update components applied at a concrete
store holding seq "7"; the new stored seq is "8". -/
theorem restful_C1_witness :
    defaultPatch fsSample [[("_id", .vstring "x"), ("seq", .vstring "7")]]
        "x" "7" false [] 5 =
      ([docMerge [("_id", .vstring "x"), ("seq", .vstring "7")]
          (docSet (docSet (fsSample.InReplace (fsSample.CheckObject [] true).1)
            "seq" (.vstring (genSeq (wrapI64 (7 + 1))))) "mtime" (.vint 5))],
       genRsp 200 "patch ok"
         (some [("id", .vstring "x"),
                ("seq", .vstring (genSeq (wrapI64 (7 + 1))))])) :=
  ((restful_C1 fsSample [[("_id", .vstring "x"), ("seq", .vstring "7")]] "x" "7" 7 [] 5
    (by decide) (by decide) (by decide)).2.2.1 [] _ [] rfl (by decide) (by decide))

/-- C1 counterexample: with client seq "-1" matching the stored seq, the
code stores seq "1" (genSeq bumps the 64-bit sum 0 to 1), not "0", the
decimal string for s+1 = 0 the claim requires. -/
theorem restful_C1_counterexample :
    (defaultPatch fsSample [[("_id", .vstring "x"), ("seq", .vstring "-1")]]
        "x" "-1" false [] 5).1 =
      [[("_id", .vstring "x"), ("seq", .vstring "1"), ("mtime", .vint 5)]] ∧
    goParseInt64 "-1" = some (-1) ∧ toString ((-1 : Int) + 1) = "0" ∧
    ¬ (GoValue.vstring "1") = .vstring "0" := by decide

theorem insort_lookup_aux (data : Doc) (x : String) (v : GoValue)
    (hdot : containsDot x = false) (hid : ¬ x = "id") (hid2 : ¬ x = "_id")
    (hv : data.lookup x = some v) :
    ∀ l : List String, x ∈ l →
      (l.filterMap (insortEntry data)).lookup x = some v := by
  intro l
  induction l with
  | nil => intro h; cases h
  | cons e es ih =>
    intro hmem
    rw [List.filterMap_cons]
    cases hfe : insortEntry data e with
    | none =>
      have hxe : x ∈ es := by
        rcases List.mem_cons.mp hmem with h | h
        · subst h
          simp [insortEntry, insortEntryKey, hid, hdot, hv] at hfe
        · exact h
      exact ih hxe
    | some b =>
      by_cases hxe : x = e
      · subst hxe
        have hb : b = (x, v) := by
          simp [insortEntry, insortEntryKey, hid, hdot, hv] at hfe
          exact hfe.symm
        subst hb
        simp [List.lookup]
      · have hxes : x ∈ es := by
          rcases List.mem_cons.mp hmem with h | h
          · exact absurd h hxe
          · exact h
        have hb1 : ¬ x = b.1 := by
          by_cases he : e = "id"
          · subst he
            simp only [insortEntry, insortEntryKey, if_true,
              show containsDot "_id" = false from by decide, Bool.false_eq_true,
              if_false] at hfe
            cases hlk : data.lookup "_id" with
            | none => simp [hlk] at hfe
            | some w =>
              simp only [hlk, Option.map_some] at hfe
              rw [← Option.some.inj hfe]
              exact hid2
          · simp only [insortEntry, if_neg he, insortEntryKey] at hfe
            cases hde : containsDot e with
            | true => rw [if_pos (by rw [hde])] at hfe; cases hfe
            | false =>
              rw [if_neg (by rw [hde]; exact fun hc => Bool.false_ne_true hc)] at hfe
              cases hlk : data.lookup e with
              | none => rw [hlk] at hfe; cases hfe
              | some w =>
                rw [hlk] at hfe
                simp at hfe
                rw [← hfe]
                exact hxe
        obtain ⟨b1, b2⟩ := b
        have hbne : (x == b1) = false := by simpa using hb1
        simp only [List.lookup, hbne]
        exact ih hxes

theorem insort_lookup (fs : FieldSet) (data : Doc) (x : String) (v : GoValue)
    (hx : x ∈ fs.FSli) (hdot : containsDot x = false) (hid : ¬ x = "id")
    (hid2 : ¬ x = "_id") (hv : data.lookup x = some v) :
    (fs.InSort data).lookup x = some v :=
  insort_lookup_aux data x v hdot hid hid2 hv fs.FSli hx

/-- C2 (amended): a full replace stamps `mtime = now` and computes the
written `btime`/`seq` from the prior document as follows.  No prior
document: `btime = now`, `seq = "1"`.  Prior document present: `btime` is
the prior `btime` (or `now` only if the prior document lacks the field)
REGARDLESS of the prior seq; `seq` is `genSeq (wrapI64 (n+1))` when the
prior seq parses as the int64 n (its decimal successor, with 64-bit wrap
and 0 bumped to "1"), and resets to "1" when the prior seq is malformed
or absent -- the btime is NOT reset in that case. -/
theorem restful_C2 (fs : FieldSet) (db : List Doc) (id : String) (body : Doc)
    (now : Int)
    (hlen : ¬ id.length > 128)
    (hbody : (fs.CheckObject (docSet body "id" (.vstring id)) false).2 = none)
    (hbs : "btime" ∈ fs.FSli) (hms : "mtime" ∈ fs.FSli) (hss : "seq" ∈ fs.FSli) :
    (db.find? (matchId id) = none →
      ∃ doc rsp, defaultPut fs db id body now = some (dbUpsert db id doc, rsp) ∧
        doc.lookup "btime" = some (.vint now) ∧
        doc.lookup "mtime" = some (.vint now) ∧
        doc.lookup "seq" = some (.vstring "1")) ∧
    (∀ old s n, db.find? (matchId id) = some old →
      old.lookup "seq" = some (.vstring s) → goParseInt64 s = some n →
      ∃ doc rsp, defaultPut fs db id body now = some (dbUpsert db id doc, rsp) ∧
        doc.lookup "btime" = some ((old.lookup "btime").getD (.vint now)) ∧
        doc.lookup "mtime" = some (.vint now) ∧
        doc.lookup "seq" = some (.vstring (genSeq (wrapI64 (n + 1))))) ∧
    (∀ old s, db.find? (matchId id) = some old →
      old.lookup "seq" = some (.vstring s) → goParseInt64 s = none →
      ∃ doc rsp, defaultPut fs db id body now = some (dbUpsert db id doc, rsp) ∧
        doc.lookup "btime" = some ((old.lookup "btime").getD (.vint now)) ∧
        doc.lookup "mtime" = some (.vint now) ∧
        doc.lookup "seq" = some (.vstring "1")) ∧
    (∀ old, db.find? (matchId id) = some old →
      old.lookup "seq" = none →
      ∃ doc rsp, defaultPut fs db id body now = some (dbUpsert db id doc, rsp) ∧
        doc.lookup "btime" = some ((old.lookup "btime").getD (.vint now)) ∧
        doc.lookup "mtime" = some (.vint now) ∧
        doc.lookup "seq" = some (.vstring "1")) := by
  have hg1 : genSeq 0 = "1" := by decide
  have hbdot : containsDot "btime" = false := by decide
  have hmdot : containsDot "mtime" = false := by decide
  have hsdot : containsDot "seq" = false := by decide
  refine ⟨?_, ?_, ?_, ?_⟩
  · intro hfind
    refine ⟨fs.InSort (putInfoBase fs body id now),
        putRsp (putInfoBase fs body id now), ?_, ?_, ?_, ?_⟩
    · simp only [defaultPut, if_neg hlen, hbody, hfind, putInfoBase, putRsp, genRsp]
    · exact insort_lookup fs _ "btime" (.vint now) hbs hbdot (by decide) (by decide)
        (by unfold putInfoBase
            rw [lookup_docSet_other _ _ _ _ (by decide),
              lookup_docSet_other _ _ _ _ (by decide), lookup_docSet_self])
    · exact insort_lookup fs _ "mtime" (.vint now) hms hmdot (by decide) (by decide)
        (by unfold putInfoBase
            rw [lookup_docSet_other _ _ _ _ (by decide), lookup_docSet_self])
    · rw [← hg1]
      exact insort_lookup fs _ "seq" (.vstring (genSeq 0)) hss hsdot (by decide)
        (by decide) (by unfold putInfoBase; rw [lookup_docSet_self])
  · intro old s n hfind hseq hparse
    have hnext : nextSeq s = some (genSeq (wrapI64 (n + 1))) := by
      unfold nextSeq
      rw [hparse]
    cases hbt : old.lookup "btime" with
    | none =>
      refine ⟨fs.InSort (docSet (docSet (putInfoBase fs body id now) "btime"
          (.vint now)) "seq" (.vstring (genSeq (wrapI64 (n + 1))))),
        putRsp (docSet (docSet (putInfoBase fs body id now) "btime"
          (.vint now)) "seq" (.vstring (genSeq (wrapI64 (n + 1))))), ?_, ?_, ?_, ?_⟩
      · simp only [defaultPut, if_neg hlen, hbody, hfind, hbt, hseq, hnext, putInfoBase, putRsp, genRsp]
      · simp only [Option.getD_none]
        exact insort_lookup fs _ "btime" (.vint now) hbs hbdot (by decide) (by decide)
          (by rw [lookup_docSet_other _ _ _ _ (by decide), lookup_docSet_self])
      · exact insort_lookup fs _ "mtime" (.vint now) hms hmdot (by decide) (by decide)
          (by unfold putInfoBase
              rw [lookup_docSet_other _ _ _ _ (by decide),
                lookup_docSet_other _ _ _ _ (by decide),
                lookup_docSet_other _ _ _ _ (by decide), lookup_docSet_self])
      · exact insort_lookup fs _ "seq" (.vstring (genSeq (wrapI64 (n + 1)))) hss hsdot
          (by decide) (by decide) (by rw [lookup_docSet_self])
    | some w =>
      refine ⟨fs.InSort (docSet (docSet (putInfoBase fs body id now) "btime" w)
          "seq" (.vstring (genSeq (wrapI64 (n + 1))))),
        putRsp (docSet (docSet (putInfoBase fs body id now) "btime" w)
          "seq" (.vstring (genSeq (wrapI64 (n + 1))))), ?_, ?_, ?_, ?_⟩
      · simp only [defaultPut, if_neg hlen, hbody, hfind, hbt, hseq, hnext, putInfoBase, putRsp, genRsp]
      · simp only [Option.getD_some]
        exact insort_lookup fs _ "btime" w hbs hbdot (by decide) (by decide)
          (by rw [lookup_docSet_other _ _ _ _ (by decide), lookup_docSet_self])
      · exact insort_lookup fs _ "mtime" (.vint now) hms hmdot (by decide) (by decide)
          (by unfold putInfoBase
              rw [lookup_docSet_other _ _ _ _ (by decide),
                lookup_docSet_other _ _ _ _ (by decide),
                lookup_docSet_other _ _ _ _ (by decide), lookup_docSet_self])
      · exact insort_lookup fs _ "seq" (.vstring (genSeq (wrapI64 (n + 1)))) hss hsdot
          (by decide) (by decide) (by rw [lookup_docSet_self])
  · intro old s hfind hseq hparse
    have hnext : nextSeq s = none := by
      unfold nextSeq
      rw [hparse]
    cases hbt : old.lookup "btime" with
    | none =>
      refine ⟨fs.InSort (docSet (docSet (putInfoBase fs body id now) "btime"
          (.vint now)) "seq" (.vstring (genSeq 0))),
        putRsp (docSet (docSet (putInfoBase fs body id now) "btime"
          (.vint now)) "seq" (.vstring (genSeq 0))), ?_, ?_, ?_, ?_⟩
      · simp only [defaultPut, if_neg hlen, hbody, hfind, hbt, hseq, hnext, putInfoBase, putRsp, genRsp]
      · simp only [Option.getD_none]
        exact insort_lookup fs _ "btime" (.vint now) hbs hbdot (by decide) (by decide)
          (by rw [lookup_docSet_other _ _ _ _ (by decide), lookup_docSet_self])
      · exact insort_lookup fs _ "mtime" (.vint now) hms hmdot (by decide) (by decide)
          (by unfold putInfoBase
              rw [lookup_docSet_other _ _ _ _ (by decide),
                lookup_docSet_other _ _ _ _ (by decide),
                lookup_docSet_other _ _ _ _ (by decide), lookup_docSet_self])
      · rw [← hg1]
        exact insort_lookup fs _ "seq" (.vstring (genSeq 0)) hss hsdot (by decide)
          (by decide) (by rw [lookup_docSet_self])
    | some w =>
      refine ⟨fs.InSort (docSet (docSet (putInfoBase fs body id now) "btime" w)
          "seq" (.vstring (genSeq 0))),
        putRsp (docSet (docSet (putInfoBase fs body id now) "btime" w)
          "seq" (.vstring (genSeq 0))), ?_, ?_, ?_, ?_⟩
      · simp only [defaultPut, if_neg hlen, hbody, hfind, hbt, hseq, hnext, putInfoBase, putRsp, genRsp]
      · simp only [Option.getD_some]
        exact insort_lookup fs _ "btime" w hbs hbdot (by decide) (by decide)
          (by rw [lookup_docSet_other _ _ _ _ (by decide), lookup_docSet_self])
      · exact insort_lookup fs _ "mtime" (.vint now) hms hmdot (by decide) (by decide)
          (by unfold putInfoBase
              rw [lookup_docSet_other _ _ _ _ (by decide),
                lookup_docSet_other _ _ _ _ (by decide),
                lookup_docSet_other _ _ _ _ (by decide), lookup_docSet_self])
      · rw [← hg1]
        exact insort_lookup fs _ "seq" (.vstring (genSeq 0)) hss hsdot (by decide)
          (by decide) (by rw [lookup_docSet_self])
  · intro old hfind hseq
    cases hbt : old.lookup "btime" with
    | none =>
      refine ⟨fs.InSort (docSet (putInfoBase fs body id now) "btime" (.vint now)),
        putRsp (docSet (putInfoBase fs body id now) "btime" (.vint now)), ?_, ?_, ?_, ?_⟩
      · simp only [defaultPut, if_neg hlen, hbody, hfind, hbt, hseq, putInfoBase, putRsp, genRsp]
      · simp only [Option.getD_none]
        exact insort_lookup fs _ "btime" (.vint now) hbs hbdot (by decide) (by decide)
          (by rw [lookup_docSet_self])
      · exact insort_lookup fs _ "mtime" (.vint now) hms hmdot (by decide) (by decide)
          (by unfold putInfoBase
              rw [lookup_docSet_other _ _ _ _ (by decide),
                lookup_docSet_other _ _ _ _ (by decide), lookup_docSet_self])
      · rw [← hg1]
        exact insort_lookup fs _ "seq" (.vstring (genSeq 0)) hss hsdot (by decide)
          (by decide)
          (by unfold putInfoBase
              rw [lookup_docSet_other _ _ _ _ (by decide), lookup_docSet_self])
    | some w =>
      refine ⟨fs.InSort (docSet (putInfoBase fs body id now) "btime" w),
        putRsp (docSet (putInfoBase fs body id now) "btime" w), ?_, ?_, ?_, ?_⟩
      · simp only [defaultPut, if_neg hlen, hbody, hfind, hbt, hseq, putInfoBase, putRsp, genRsp]
      · simp only [Option.getD_some]
        exact insort_lookup fs _ "btime" w hbs hbdot (by decide) (by decide)
          (by rw [lookup_docSet_self])
      · exact insort_lookup fs _ "mtime" (.vint now) hms hmdot (by decide) (by decide)
          (by unfold putInfoBase
              rw [lookup_docSet_other _ _ _ _ (by decide),
                lookup_docSet_other _ _ _ _ (by decide), lookup_docSet_self])
      · rw [← hg1]
        exact insort_lookup fs _ "seq" (.vstring (genSeq 0)) hss hsdot (by decide)
          (by decide)
          (by unfold putInfoBase
              rw [lookup_docSet_other _ _ _ _ (by decide), lookup_docSet_self])

/-- C2 witness: the create component applied at an empty store: btime and
mtime are the current time and seq is "1". -/
theorem restful_C2_witness :
    ∃ doc rsp, defaultPut fsSample [] "x" [] 7 = some (dbUpsert [] "x" doc, rsp) ∧
      doc.lookup "btime" = some (.vint 7) ∧
      doc.lookup "mtime" = some (.vint 7) ∧
      doc.lookup "seq" = some (.vstring "1") :=
  (restful_C2 fsSample [] "x" [] 7 (by decide) (by decide) (by decide) (by decide)
    (by decide)).1 rfl

/-- C2 counterexample: a prior document with btime 100 and the malformed
seq "abc", replaced at now = 200: the code preserves btime 100 and only
resets seq to "1", while the claim requires btime to reset to now (200)
whenever the prior seq is malformed. -/
theorem restful_C2_counterexample :
    defaultPut fsSample
        [[("_id", .vstring "x"), ("btime", .vint 100), ("seq", .vstring "abc")]]
        "x" [] 200 =
      some ([[("_id", .vstring "x"), ("btime", .vint 100), ("mtime", .vint 200),
              ("seq", .vstring "1")]],
        genRsp 200 "put ok" (some [("id", .vstring "x"), ("seq", .vstring "1")])) ∧
    goParseInt64 "abc" = none ∧ ¬ (GoValue.vint 100) = .vint 200 := by decide


/-- Every reason a single `check` iteration can record is one of the six
fixed strings. -/
theorem checkEntry_viol_reason (fs : FieldSet) (pre : List String) (dOk : Bool)
    (k : String) (v : GoValue) (full reason : String)
    (h : fs.checkEntry pre dOk k v = .viol full reason) :
    reason ∈ reasonsList := by
  simp only [FieldSet.checkEntry] at h
  repeat' split at h
  all_goals first
    | (injection h with h1 h2; subst h2; decide)
    | exact EntryAction.noConfusion h

/-- `check` on the empty object. -/
theorem check_nil (fs : FieldSet) (pre : List String) (dOk : Bool) :
    (fs.check pre dOk []).1 = [] ∧ (fs.check pre dOk []).2 = [] :=
  ⟨rfl, rfl⟩

/-- One `check` step when the entry is a violation. -/
theorem check_cons_viol (fs : FieldSet) (pre : List String) (dOk : Bool)
    (k : String) (v : GoValue) (rest : Doc) (full reason : String)
    (hact : fs.checkEntry pre dOk k v = .viol full reason) :
    (fs.check pre dOk ((k, v) :: rest)).1
        = (if full = k then [] else [(k, v)]) ++ (fs.check pre dOk rest).1 ∧
    (fs.check pre dOk ((k, v) :: rest)).2
        = (full, reason) :: (fs.check pre dOk rest).2 := by
  cases v
  case varr es =>
    rw [FieldSet.check.eq_2, hact]
    exact ⟨rfl, rfl⟩
  all_goals
    rw [FieldSet.check.eq_3 fs pre dOk k _ rest (by intro x h; exact GoValue.noConfusion h), hact]
    exact ⟨rfl, rfl⟩

/-- One `check` step when the entry is kept with no descent. -/
theorem check_cons_keep (fs : FieldSet) (pre : List String) (dOk : Bool)
    (k : String) (v : GoValue) (rest : Doc)
    (hact : fs.checkEntry pre dOk k v = .keep) :
    (fs.check pre dOk ((k, v) :: rest)).1 = (k, v) :: (fs.check pre dOk rest).1 ∧
    (fs.check pre dOk ((k, v) :: rest)).2 = (fs.check pre dOk rest).2 := by
  cases v
  case varr es =>
    rw [FieldSet.check.eq_2, hact]
    exact ⟨rfl, rfl⟩
  all_goals
    rw [FieldSet.check.eq_3 fs pre dOk k _ rest (by intro x h; exact GoValue.noConfusion h), hact]
    exact ⟨rfl, rfl⟩

/-- One `check` step when the entry is an Object descent. -/
theorem check_cons_keepObj (fs : FieldSet) (pre : List String) (dOk : Bool)
    (k : String) (v : GoValue) (rest : Doc)
    (hact : fs.checkEntry pre dOk k v = .keepObj) :
    (fs.check pre dOk ((k, v) :: rest)).1
        = (k, (fs.checkInto (pre ++ [k]) dOk v).1) :: (fs.check pre dOk rest).1 ∧
    (fs.check pre dOk ((k, v) :: rest)).2
        = (fs.checkInto (pre ++ [k]) dOk v).2 ++ (fs.check pre dOk rest).2 := by
  cases v
  case varr es =>
    rw [FieldSet.check.eq_2, hact]
    exact ⟨rfl, rfl⟩
  all_goals
    rw [FieldSet.check.eq_3 fs pre dOk k _ rest (by intro x h; exact GoValue.noConfusion h), hact]
    exact ⟨rfl, rfl⟩

/-- One `check` step when the entry is an Array-of-Object descent and the
value really is an array. -/
theorem check_cons_keepArr (fs : FieldSet) (pre : List String) (dOk : Bool)
    (k : String) (elems : List GoValue) (rest : Doc)
    (hact : fs.checkEntry pre dOk k (.varr elems) = .keepArrObj) :
    (fs.check pre dOk ((k, GoValue.varr elems) :: rest)).1
        = (k, GoValue.varr (fs.checkElems (pre ++ [k]) dOk elems).1)
            :: (fs.check pre dOk rest).1 ∧
    (fs.check pre dOk ((k, GoValue.varr elems) :: rest)).2
        = (fs.checkElems (pre ++ [k]) dOk elems).2 ++ (fs.check pre dOk rest).2 := by
  rw [FieldSet.check.eq_2, hact]
  exact ⟨rfl, rfl⟩

/-- One `check` step for an Array-of-Object descent on a non-array value
(unreachable from `checkEntry`, but the match has the arm). -/
theorem check_cons_keepArr_other (fs : FieldSet) (pre : List String) (dOk : Bool)
    (k : String) (v : GoValue) (rest : Doc)
    (hact : fs.checkEntry pre dOk k v = .keepArrObj)
    (hv : ∀ elems, ¬ v = GoValue.varr elems) :
    (fs.check pre dOk ((k, v) :: rest)).1 = (k, v) :: (fs.check pre dOk rest).1 ∧
    (fs.check pre dOk ((k, v) :: rest)).2 = (fs.check pre dOk rest).2 := by
  cases v
  case varr es => exact absurd rfl (hv es)
  all_goals
    rw [FieldSet.check.eq_3 fs pre dOk k _ rest (by intro x h; exact GoValue.noConfusion h), hact]
    exact ⟨rfl, rfl⟩

/-- `checkInto` on an Object value. -/
theorem checkInto_obj (fs : FieldSet) (pre : List String) (dOk : Bool)
    (child : Doc) :
    (fs.checkInto pre dOk (.vobj child)).1 = .vobj (fs.check pre dOk child).1 ∧
    (fs.checkInto pre dOk (.vobj child)).2 = (fs.check pre dOk child).2 := by
  rw [FieldSet.checkInto.eq_1]
  exact ⟨rfl, rfl⟩

/-- `checkInto` on a non-Object value. -/
theorem checkInto_other (fs : FieldSet) (pre : List String) (dOk : Bool)
    (v : GoValue) (hv : ∀ child, ¬ v = GoValue.vobj child) :
    (fs.checkInto pre dOk v).1 = v ∧ (fs.checkInto pre dOk v).2 = [] := by
  cases v
  case vobj child => exact absurd rfl (hv child)
  all_goals exact ⟨rfl, rfl⟩

/-- `checkElems` on the empty array. -/
theorem checkElems_nil (fs : FieldSet) (pre : List String) (dOk : Bool) :
    (fs.checkElems pre dOk []).1 = [] ∧ (fs.checkElems pre dOk []).2 = [] :=
  ⟨rfl, rfl⟩

/-- One `checkElems` step. -/
theorem checkElems_cons (fs : FieldSet) (pre : List String) (dOk : Bool)
    (e : GoValue) (es : List GoValue) :
    (fs.checkElems pre dOk (e :: es)).1
        = (fs.checkInto pre dOk e).1 :: (fs.checkElems pre dOk es).1 ∧
    (fs.checkElems pre dOk (e :: es)).2
        = (fs.checkInto pre dOk e).2 ++ (fs.checkElems pre dOk es).2 := by
  rw [FieldSet.checkElems.eq_2]
  exact ⟨rfl, rfl⟩

mutual
/-- Structural facts about `check`: every recorded reason is from the
fixed list, and with no violations the object comes back unchanged. -/
theorem check_props (fs : FieldSet) (dOk : Bool) (pre : List String)
    (obj : Doc) :
    (∀ kv ∈ (fs.check pre dOk obj).2, kv.2 ∈ reasonsList) ∧
    ((fs.check pre dOk obj).2 = [] → (fs.check pre dOk obj).1 = obj) := by
  cases obj with
  | nil =>
    refine ⟨fun kv hkv => ?_, fun _ => (check_nil fs pre dOk).1⟩
    rw [(check_nil fs pre dOk).2] at hkv
    exact absurd hkv (List.not_mem_nil kv)
  | cons hd rest =>
    obtain ⟨k, v⟩ := hd
    have ihRest := check_props fs dOk pre rest
    cases hact : fs.checkEntry pre dOk k v with
    | viol full reason =>
      have hstep := check_cons_viol fs pre dOk k v rest full reason hact
      constructor
      · intro kv hkv
        rw [hstep.2] at hkv
        rcases List.mem_cons.mp hkv with h | h
        · rw [h]
          exact checkEntry_viol_reason fs pre dOk k v full reason hact
        · exact ihRest.1 kv h
      · intro hnil
        rw [hstep.2] at hnil
        exact absurd hnil (List.cons_ne_nil _ _)
    | keep =>
      have hstep := check_cons_keep fs pre dOk k v rest hact
      constructor
      · intro kv hkv
        rw [hstep.2] at hkv
        exact ihRest.1 kv hkv
      · intro hnil
        rw [hstep.2] at hnil
        rw [hstep.1, ihRest.2 hnil]
    | keepObj =>
      have ihV := checkInto_props fs dOk (pre ++ [k]) v
      have hstep := check_cons_keepObj fs pre dOk k v rest hact
      constructor
      · intro kv hkv
        rw [hstep.2] at hkv
        rcases List.mem_append.mp hkv with h | h
        · exact ihV.1 kv h
        · exact ihRest.1 kv h
      · intro hnil
        rw [hstep.2] at hnil
        rcases List.append_eq_nil.mp hnil with ⟨h1, h2⟩
        rw [hstep.1, ihV.2 h1, ihRest.2 h2]
    | keepArrObj =>
      cases v
      case varr elems =>
        have ihE := checkElems_props fs dOk (pre ++ [k]) elems
        have hstep := check_cons_keepArr fs pre dOk k elems rest hact
        constructor
        · intro kv hkv
          rw [hstep.2] at hkv
          rcases List.mem_append.mp hkv with h | h
          · exact ihE.1 kv h
          · exact ihRest.1 kv h
        · intro hnil
          rw [hstep.2] at hnil
          rcases List.append_eq_nil.mp hnil with ⟨h1, h2⟩
          rw [hstep.1, ihE.2 h1, ihRest.2 h2]
      all_goals
        have hstep := check_cons_keepArr_other fs pre dOk k _ rest hact
            (by intro es h; exact GoValue.noConfusion h)
        refine ⟨fun kv hkv => ?_, fun hnil => ?_⟩
        · rw [hstep.2] at hkv
          exact ihRest.1 kv hkv
        · rw [hstep.2] at hnil
          rw [hstep.1, ihRest.2 hnil]
termination_by sizeOf obj

/-- `check_props` carried through one Object value. -/
theorem checkInto_props (fs : FieldSet) (dOk : Bool) (pre : List String)
    (v : GoValue) :
    (∀ kv ∈ (fs.checkInto pre dOk v).2, kv.2 ∈ reasonsList) ∧
    ((fs.checkInto pre dOk v).2 = [] → (fs.checkInto pre dOk v).1 = v) := by
  cases v
  case vobj child =>
    have ih := check_props fs dOk pre child
    have hstep := checkInto_obj fs pre dOk child
    constructor
    · intro kv hkv
      rw [hstep.2] at hkv
      exact ih.1 kv hkv
    · intro hnil
      rw [hstep.2] at hnil
      rw [hstep.1, ih.2 hnil]
  all_goals
    refine ⟨fun kv hkv => ?_,
            fun _ => (checkInto_other fs pre dOk _
              (by intro c h; exact GoValue.noConfusion h)).1⟩
    rw [(checkInto_other fs pre dOk _
        (by intro c h; exact GoValue.noConfusion h)).2] at hkv
    exact absurd hkv (List.not_mem_nil kv)
termination_by sizeOf v

/-- `check_props` carried through the elements of an Array-of-Object
value. -/
theorem checkElems_props (fs : FieldSet) (dOk : Bool) (pre : List String)
    (es : List GoValue) :
    (∀ kv ∈ (fs.checkElems pre dOk es).2, kv.2 ∈ reasonsList) ∧
    ((fs.checkElems pre dOk es).2 = [] → (fs.checkElems pre dOk es).1 = es) := by
  cases es with
  | nil =>
    refine ⟨fun kv hkv => ?_, fun _ => (checkElems_nil fs pre dOk).1⟩
    rw [(checkElems_nil fs pre dOk).2] at hkv
    exact absurd hkv (List.not_mem_nil kv)
  | cons e es =>
    have ihE := checkInto_props fs dOk pre e
    have ihR := checkElems_props fs dOk pre es
    have hstep := checkElems_cons fs pre dOk e es
    constructor
    · intro kv hkv
      rw [hstep.2] at hkv
      rcases List.mem_append.mp hkv with h | h
      · exact ihE.1 kv h
      · exact ihR.1 kv h
    · intro hnil
      rw [hstep.2] at hnil
      rcases List.append_eq_nil.mp hnil with ⟨h1, h2⟩
      rw [hstep.1, ihE.2 h1, ihR.2 h2]
termination_by sizeOf es
end

/-- C3: the validator is non-fail-fast and reports an aggregate error iff
the violation set is non-empty, and every recorded reason is one of the
six fixed strings; but on success the document is returned ENTIRELY
unchanged — recognized values are NOT replaced by their coerced canonical
forms — and the claimed in-place deletion only reaches top-level entries:
a violating entry inside a nested object (or an array element's object)
survives, because the delete uses the dotted full path as the key.  The
conjuncts: (1) `CheckObject` errors iff `check` recorded a violation;
(2) every recorded reason is from `reasonsList`; (3) on success the
document is unchanged; (4) a violating top-level entry is deleted;
(5) a violating entry nested in an Object field is recorded but NOT
deleted; (6) a recognized Float-for-Int value is kept verbatim, not
coerced. -/
theorem restful_C3 :
    (∀ (fs : FieldSet) (obj : Doc) (dotOk : Bool),
      (fs.CheckObject obj dotOk).2.isSome = true ↔
        ¬ (fs.check [] dotOk obj).2 = []) ∧
    (∀ (fs : FieldSet) (pre : List String) (dOk : Bool) (obj : Doc),
      ∀ kv ∈ (fs.check pre dOk obj).2, kv.2 ∈ reasonsList) ∧
    (∀ (fs : FieldSet) (obj : Doc) (dotOk : Bool),
      (fs.CheckObject obj dotOk).2 = none → (fs.CheckObject obj dotOk).1 = obj) ∧
    (fsSample.check [] false [("zzz", .vint 1)] = ([], [("zzz", "unknown")])) ∧
    (fsSample.check [] false [("a", .vobj [("c", .vbool true)])] =
      ([("a", .vobj [("c", .vbool true)])], [("a.c", "unknown")])) ∧
    (fsSample.check [] false [("n", .vfloat (mkRat 39 10))] =
      ([("n", .vfloat (mkRat 39 10))], [])) := by
  refine ⟨?_, ?_, ?_, by decide, by decide, by decide⟩
  · intro fs obj dotOk
    cases hl : (fs.check [] dotOk obj).2 <;> simp [FieldSet.CheckObject, hl]
  · exact fun fs pre dOk obj => (check_props fs dOk pre obj).1
  · intro fs obj dotOk h
    cases hl : (fs.check [] dotOk obj).2 with
    | nil => exact (check_props fs dotOk [] obj).2 hl
    | cons a as => simp [FieldSet.CheckObject, hl] at h

/-- C3 witness: conjunct (3) applied to a concrete passing document:
`{n: 5}` validates with no error and comes back unchanged. -/
theorem restful_C3_witness :
    (fsSample.CheckObject [("n", .vint 5)] false).2 = none ∧
    (fsSample.CheckObject [("n", .vint 5)] false).1 = [("n", .vint 5)] :=
  ⟨by decide, restful_C3.2.2.1 fsSample [("n", .vint 5)] false (by decide)⟩

/-- C3 counterexample to the frozen wording: the nested violation `a.c`
is recorded but the offending entry stays in the nested object (the
delete targets the key "a.c", which the nested map does not contain); and
a recognized value is not replaced by its coerced form: `3.9` for the Int
field `n` passes validation (its coercion is `CheckInt ↦ 3`) yet stays
`3.9` in the document. -/
theorem restful_C3_counterexample :
    (fsSample.check [] false [("a", .vobj [("c", .vbool true)])]).2
        = [("a.c", "unknown")] ∧
    (fsSample.check [] false [("a", .vobj [("c", .vbool true)])]).1
        = [("a", .vobj [("c", .vbool true)])] ∧
    fsSample.CheckObject [("n", .vfloat (mkRat 39 10))] false
        = ([("n", .vfloat (mkRat 39 10))], none) ∧
    CheckInt (.vfloat (mkRat 39 10)) = some (.vint 3) ∧
    ¬ (GoValue.vfloat (mkRat 39 10) = .vint 3) := by decide

end Restful
